import Mathlib

set_option maxHeartbeats 1000000
set_option maxRecDepth 4000

/-!
Verification development for `queryparser.py`: a compiler from Solr-style
querystrings to haystack `SQ` query objects.  The Python source is embedded
shallowly below: pure functions become Lean functions over `List Char`
(Python 2 byte strings), fallible code returns `Except PyErr`, and the
behaviour of the standard-library collaborators that the module calls
(`str.replace`, `re.split("(\w+):", ...)`, `ast.parse` on the boolean
expression fragment, `ast.NodeVisitor` traversal, `reduce`) is embedded
faithfully for the inputs this module can feed them.
-/

/-- Python exceptions that can escape the module: `SyntaxError` raised by
`ast.parse`, `TypeError` raised by `reduce()` on an empty sequence,
`IndexError` raised by `nodelist[0]` / `nodelist[-1] = ...` on lists that
are too short, and `ValueError` raised by the string-literal escape
decoder for a malformed `\x` escape. -/
inductive PyErr : Type where
  | synErr (msg : String) : PyErr
  | typeError (msg : String) : PyErr
  | indexError (msg : String) : PyErr
  | valueError (msg : String) : PyErr
deriving DecidableEq, Repr

/-- A haystack `SQ` query object, kept opaque exactly as the source treats
it: `SQ([field, term])` makes a leaf, and the module only ever combines two
`SQ`s with `operator.and_` / `operator.or_` (binary `&` / `|`). -/
inductive SQ : Type where
  | leaf (field : List Char) (term : List Char) : SQ
  | and (a b : SQ) : SQ
  | or (a b : SQ) : SQ
deriving DecidableEq, Repr

/-- Boolean semantics of a composed query object: a valuation assigns each
`(field, term)` leaf a truth value and the AND/OR combinators are the
boolean connectives (spec sections 3 and 4.4 treat `QueryObject`s as
opaque values with boolean meaning). -/
def evalSQ (v : List Char → List Char → Bool) : SQ → Bool
  | SQ.leaf f t => v f t
  | SQ.and a b => evalSQ v a && evalSQ v b
  | SQ.or a b => evalSQ v a || evalSQ v b

/-- Two query objects are semantically equivalent when every valuation of
the leaves gives them the same truth value. -/
def SemEquivSQ (q1 q2 : SQ) : Prop :=
  ∀ v : List Char → List Char → Bool, evalSQ v q1 = evalSQ v q2

/-- Embeds `str.replace("OR", "or")`: replace every occurrence of the two-byte
pattern `OR`, scanning left to right, non-overlapping (CPython semantics of
`str.replace`), specialised to the concrete pattern used at line 144 of the
source. -/
def replOR : List Char → List Char
  | 'O' :: 'R' :: rest => 'o' :: 'r' :: replOR rest
  | c :: rest => c :: replOR rest
  | [] => []

/-- Embeds `str.replace("AND", "and")`, same semantics as `replOR`, the second
replace at line 144 of the source. -/
def replAND : List Char → List Char
  | 'A' :: 'N' :: 'D' :: rest => 'a' :: 'n' :: 'd' :: replAND rest
  | c :: rest => c :: replAND rest
  | [] => []

/-- Embeds `qs.replace("OR", "or").replace("AND", "and")` (line 144). -/
def mangleL (l : List Char) : List Char :=
  replAND (replOR l)

/-- Does the byte string contain `OR` as a substring? (Used only to state
hypotheses of theorems; the source has no such check.) -/
def containsOR : List Char → Bool
  | 'O' :: 'R' :: _ => true
  | _ :: rest => containsOR rest
  | [] => false

/-- Does the byte string contain `AND` as a substring? (Hypothesis-side
predicate only.) -/
def containsAND : List Char → Bool
  | 'A' :: 'N' :: 'D' :: _ => true
  | _ :: rest => containsAND rest
  | [] => false

/-- Python 2 `\w` with no `re.U` flag (the source's line 84 comment notes
`re.U` was never added): ASCII letters, digits and underscore.  The same
class describes the characters CPython's tokenizer accepts inside a
`NAME` token. -/
def isWordCharL (c : Char) : Bool :=
  c.isAlpha || c.isDigit || c = '_'

/-- An octal digit, as used by Python 2 string-literal octal escapes. -/
def isOctDigit (c : Char) : Bool :=
  '0' <= c && c <= '7'

/-- Numeric value of an octal digit. -/
def octVal (c : Char) : Nat :=
  c.toNat - '0'.toNat

/-- Decode a one-digit octal escape. -/
def octEsc1 (o1 : Char) : Char :=
  Char.ofNat (octVal o1)

/-- Decode a two-digit octal escape. -/
def octEsc2 (o1 o2 : Char) : Char :=
  Char.ofNat ((octVal o1 * 8 + octVal o2) % 256)

/-- Decode a three-digit octal escape; CPython truncates the value to one
byte. -/
def octEsc3 (o1 o2 o3 : Char) : Char :=
  Char.ofNat ((octVal o1 * 64 + octVal o2 * 8 + octVal o3) % 256)

/-- A hexadecimal digit, as used by Python 2 `\xhh` escapes. -/
def isHexDigitL (c : Char) : Bool :=
  c.isDigit || ('a' <= c && c <= 'f') || ('A' <= c && c <= 'F')

/-- Numeric value of a hexadecimal digit. -/
def hexVal (c : Char) : Nat :=
  if c.isDigit then c.toNat - '0'.toNat
  else if 'a' <= c && c <= 'f' then c.toNat - 'a'.toNat + 10
  else c.toNat - 'A'.toNat + 10

/-- Decode a two-digit hexadecimal escape. -/
def hexEsc (h1 h2 : Char) : Char :=
  Char.ofNat (hexVal h1 * 16 + hexVal h2)

mutual
/-- Embeds CPython 2's `PyString_DecodeEscape` on the raw body of a
double-quoted byte-string literal (the decode stage that produces
`node.s` after the tokenizer has found the closing quote): a backslash
escapes the next byte per the Python 2 table, everything else is copied
verbatim. -/
def decEsc : List Char → Except PyErr (List Char)
  | [] => Except.ok []
  | c :: cs =>
    if c = '\\' then decEscSlash cs
    else (fun l => c :: l) <$> decEsc cs

/-- Decode what follows a backslash: backslash-newline is a line
continuation and vanishes, the simple escapes map to their control
bytes, octal and `\xhh` escapes are decoded (a malformed `\x` escape is
CPython's ValueError), and an unrecognized escape keeps both bytes.  The
empty case cannot arise from the tokenizer, which always pairs a
backslash with a following byte; CPython would copy the lone
backslash. -/
def decEscSlash : List Char → Except PyErr (List Char)
  | [] => Except.ok ['\\']
  | e :: cs =>
    if e = '\n' then decEsc cs
    else if e = '\r' then decEsc cs
    else if e = '\\' then (fun l => '\\' :: l) <$> decEsc cs
    else if e = '\'' then (fun l => '\'' :: l) <$> decEsc cs
    else if e = '"' then (fun l => '"' :: l) <$> decEsc cs
    else if e = 'a' then (fun l => Char.ofNat 7 :: l) <$> decEsc cs
    else if e = 'b' then (fun l => Char.ofNat 8 :: l) <$> decEsc cs
    else if e = 'f' then (fun l => Char.ofNat 12 :: l) <$> decEsc cs
    else if e = 'n' then (fun l => '\n' :: l) <$> decEsc cs
    else if e = 'r' then (fun l => '\r' :: l) <$> decEsc cs
    else if e = 't' then (fun l => '\t' :: l) <$> decEsc cs
    else if e = 'v' then (fun l => Char.ofNat 11 :: l) <$> decEsc cs
    else if isOctDigit e then decEscOct1 e cs
    else if e = 'x' then
      match cs with
      | h1 :: h2 :: cs4 =>
        if isHexDigitL h1 && isHexDigitL h2 then
          (fun l => hexEsc h1 h2 :: l) <$> decEsc cs4
        else Except.error (PyErr.valueError "invalid \\x escape")
      | _ => Except.error (PyErr.valueError "invalid \\x escape")
    else (fun l => '\\' :: e :: l) <$> decEsc cs

/-- Decode the continuation of an octal escape after one digit. -/
def decEscOct1 (o1 : Char) : List Char → Except PyErr (List Char)
  | [] => Except.ok [octEsc1 o1]
  | c :: cs =>
    if isOctDigit c then decEscOct2 o1 c cs
    else if c = '\\' then (fun l => octEsc1 o1 :: l) <$> decEscSlash cs
    else (fun l => octEsc1 o1 :: c :: l) <$> decEsc cs

/-- Decode the continuation of an octal escape after two digits. -/
def decEscOct2 (o1 o2 : Char) : List Char → Except PyErr (List Char)
  | [] => Except.ok [octEsc2 o1 o2]
  | c :: cs =>
    if isOctDigit c then (fun l => octEsc3 o1 o2 c :: l) <$> decEsc cs
    else if c = '\\' then (fun l => octEsc2 o1 o2 :: l) <$> decEscSlash cs
    else (fun l => octEsc2 o1 o2 :: c :: l) <$> decEsc cs
end

/-- Tokens of the Python expression fragment reachable from this module's
clause strings: parentheses, the keywords `or` / `and` / `not` (lowercase
only — CPython keywords are case sensitive), `NAME` identifiers, string
literals (content between double quotes) and digit runs. -/
inductive Tok : Type where
  | lpar : Tok
  | rpar : Tok
  | kwOr : Tok
  | kwAnd : Tok
  | kwNot : Tok
  | ident (s : List Char) : Tok
  | str (s : List Char) : Tok
  | num (s : List Char) : Tok
deriving DecidableEq, Repr

/-- Classify a completed word run the way CPython's tokenizer/parser does:
exactly the lowercase spellings `or`, `and`, `not` are keywords, a pure
digit run is a number and a run starting with a digit but containing
letters is rejected; everything else is a `NAME`. -/
def classifyWord (w : List Char) : Except PyErr Tok :=
  if w = ['o', 'r'] then Except.ok Tok.kwOr
  else if w = ['a', 'n', 'd'] then Except.ok Tok.kwAnd
  else if w = ['n', 'o', 't'] then Except.ok Tok.kwNot
  else if w.all (fun c => c.isDigit) then Except.ok (Tok.num w)
  else if (match w with | c :: _ => c.isDigit | [] => false) then
    Except.error (PyErr.synErr "invalid syntax")
  else Except.ok (Tok.ident w)

/-- Tokenizer state: scanning between tokens, inside a word run (reversed
accumulator), inside a double-quoted string literal (reversed raw
accumulator), or inside a string literal immediately after a
backslash. -/
inductive TokMode : Type where
  | norm : TokMode
  | word (acc : List Char) : TokMode
  | str (acc : List Char) : TokMode
  | strEsc (acc : List Char) : TokMode

/-- One-pass tokenizer for the fragment of Python source that this
module's clause strings can reach after line 144's keyword lowering:
spaces separate tokens, `(` `)` are punctuation, word runs become
keywords/names/numbers.  The `"..."` string-literal mode follows
CPython 2's scanning and decoding of a double-quoted (non-raw) byte
string: a bare newline or carriage return before the closing quote — a
line end, after universal-newline translation — raises the
`EOL while scanning string literal` SyntaxError, as does a string still
open at the end of the input; during scanning a backslash always
consumes the following byte (so an escaped quote does not close the
literal), and when the closing quote is found the raw body is decoded by
`decEsc`, the embedding of CPython's escape decoder, to give the `Str`
node's value.  Any other byte outside a string literal is
rejected as `invalid syntax`; of those CPython accepts only a bare
newline (as a statement separator), an input shape no statement below
quantifies over. -/
def tokM : TokMode → List Char → Except PyErr (List Tok)
  | TokMode.norm, [] => Except.ok []
  | TokMode.norm, c :: cs =>
    if c = ' ' then tokM TokMode.norm cs
    else if c = '(' then do
      let ts ← tokM TokMode.norm cs
      Except.ok (Tok.lpar :: ts)
    else if c = ')' then do
      let ts ← tokM TokMode.norm cs
      Except.ok (Tok.rpar :: ts)
    else if c = '"' then tokM (TokMode.str []) cs
    else if isWordCharL c then tokM (TokMode.word [c]) cs
    else Except.error (PyErr.synErr "invalid syntax")
  | TokMode.word acc, [] => do
    let t ← classifyWord acc.reverse
    Except.ok [t]
  | TokMode.word acc, c :: cs =>
    if isWordCharL c then tokM (TokMode.word (c :: acc)) cs
    else if c = ' ' then do
      let t ← classifyWord acc.reverse
      let ts ← tokM TokMode.norm cs
      Except.ok (t :: ts)
    else if c = '(' then do
      let t ← classifyWord acc.reverse
      let ts ← tokM TokMode.norm cs
      Except.ok (t :: Tok.lpar :: ts)
    else if c = ')' then do
      let t ← classifyWord acc.reverse
      let ts ← tokM TokMode.norm cs
      Except.ok (t :: Tok.rpar :: ts)
    else if c = '"' then do
      let t ← classifyWord acc.reverse
      let ts ← tokM (TokMode.str []) cs
      Except.ok (t :: ts)
    else Except.error (PyErr.synErr "invalid syntax")
  | TokMode.str _, [] => Except.error (PyErr.synErr "EOL while scanning string literal")
  | TokMode.str acc, c :: cs =>
    if c = '"' then do
      let body ← decEsc acc.reverse
      let ts ← tokM TokMode.norm cs
      Except.ok (Tok.str body :: ts)
    else if c = '\n' then Except.error (PyErr.synErr "EOL while scanning string literal")
    else if c = '\r' then Except.error (PyErr.synErr "EOL while scanning string literal")
    else if c = '\\' then tokM (TokMode.strEsc acc) cs
    else tokM (TokMode.str (c :: acc)) cs
  | TokMode.strEsc _, [] => Except.error (PyErr.synErr "EOL while scanning string literal")
  | TokMode.strEsc acc, e :: cs => tokM (TokMode.str (e :: '\\' :: acc)) cs


/-- Tokenize a clause string (entry point into `tokM`). -/
def tokenize (l : List Char) : Except PyErr (List Tok) :=
  tokM TokMode.norm l

mutual
/-- The `ast` nodes that `ast.parse` can produce from this module's clause
strings: `Name`, `Str`, `Num`, n-ary `BoolOp` (CPython collapses a chain
of equal boolean operators at one syntactic level into a single `BoolOp`
with three or more values) and `UnaryOp(Not, ...)`. -/
inductive PyAst : Type where
  | pyName (id : List Char) : PyAst
  | pyStr (s : List Char) : PyAst
  | pyNum (s : List Char) : PyAst
  | pyBool (op : Bool) (values : PyAstList) : PyAst
  | pyNot (operand : PyAst) : PyAst

/-- The `values` list of a `BoolOp` node (kept as a mutual inductive so
that the visitor below is structurally recursive). -/
inductive PyAstList : Type where
  | nil : PyAstList
  | cons (head : PyAst) (tail : PyAstList) : PyAstList
end

/-- Convert an ordinary list of nodes into a `BoolOp` values list. -/
def toAstL : List PyAst → PyAstList
  | [] => PyAstList.nil
  | a :: rest => PyAstList.cons a (toAstL rest)

/-- Build the node for a (left-to-right) chain of operands at one
precedence level, mirroring the CPython grammar: a single operand produces
no `BoolOp` node at all, two or more produce one n-ary `BoolOp`.
`op = true` stands for `Or`, `op = false` for `And`. -/
def mkBoolOp (op : Bool) : List PyAst → PyAst
  | [v] => v
  | vs => PyAst.pyBool op (toAstL vs)

mutual
/-- Rule `or_expr := and_expr ("or" and_expr)*` of the CPython expression
grammar, fuelled (the fuel is sized generously by `astParse` and is never
exhausted on inputs it is called with). -/
def parseOrE (fuel : Nat) (toks : List Tok) : Except PyErr (PyAst × List Tok) :=
  match fuel with
  | 0 => Except.error (PyErr.synErr "fuel")
  | f + 1 => do
    let (a, r) ← parseAndE f toks
    parseOrTail f r [a]

/-- Collect further `"or" and_expr` repetitions into one values list. -/
def parseOrTail (fuel : Nat) (toks : List Tok) (acc : List PyAst) :
    Except PyErr (PyAst × List Tok) :=
  match fuel with
  | 0 => Except.error (PyErr.synErr "fuel")
  | f + 1 =>
    match toks with
    | Tok.kwOr :: r => do
      let (b, r2) ← parseAndE f r
      parseOrTail f r2 (acc ++ [b])
    | _ => Except.ok (mkBoolOp true acc, toks)

/-- Rule `and_expr := not_expr ("and" not_expr)*`. -/
def parseAndE (fuel : Nat) (toks : List Tok) : Except PyErr (PyAst × List Tok) :=
  match fuel with
  | 0 => Except.error (PyErr.synErr "fuel")
  | f + 1 => do
    let (a, r) ← parseNotE f toks
    parseAndTail f r [a]

/-- Collect further `"and" not_expr` repetitions into one values list. -/
def parseAndTail (fuel : Nat) (toks : List Tok) (acc : List PyAst) :
    Except PyErr (PyAst × List Tok) :=
  match fuel with
  | 0 => Except.error (PyErr.synErr "fuel")
  | f + 1 =>
    match toks with
    | Tok.kwAnd :: r => do
      let (b, r2) ← parseNotE f r
      parseAndTail f r2 (acc ++ [b])
    | _ => Except.ok (mkBoolOp false acc, toks)

/-- Rule `not_expr := "not" not_expr | atom`. -/
def parseNotE (fuel : Nat) (toks : List Tok) : Except PyErr (PyAst × List Tok) :=
  match fuel with
  | 0 => Except.error (PyErr.synErr "fuel")
  | f + 1 =>
    match toks with
    | Tok.kwNot :: r => do
      let (a, r2) ← parseNotE f r
      Except.ok (PyAst.pyNot a, r2)
    | _ => parseAtomE f toks

/-- Rule `atom := "(" expr ")" | NAME | STRING | NUMBER`; a parenthesis left
open at end of input is CPython's `unexpected EOF while parsing`. -/
def parseAtomE (fuel : Nat) (toks : List Tok) : Except PyErr (PyAst × List Tok) :=
  match fuel with
  | 0 => Except.error (PyErr.synErr "fuel")
  | f + 1 =>
    match toks with
    | Tok.lpar :: r => do
      let (e, r2) ← parseOrE f r
      match r2 with
      | Tok.rpar :: r3 => Except.ok (e, r3)
      | [] => Except.error (PyErr.synErr "unexpected EOF while parsing")
      | _ => Except.error (PyErr.synErr "invalid syntax")
    | Tok.ident s :: r => Except.ok (PyAst.pyName s, r)
    | Tok.str s :: r => Except.ok (PyAst.pyStr s, r)
    | Tok.num s :: r => Except.ok (PyAst.pyNum s, r)
    | [] => Except.error (PyErr.synErr "unexpected EOF while parsing")
    | _ => Except.error (PyErr.synErr "invalid syntax")
end

/-- Embeds `ast.parse` on one clause string: tokenize, then parse a single
expression statement.  An empty token stream gives `Module(body=[])`,
modelled as `none`; leftover tokens after one expression are a
SyntaxError (the module never feeds multi-statement input). -/
def astParse (l : List Char) : Except PyErr (Option PyAst) := do
  let toks ← tokenize l
  match toks with
  | [] => Except.ok none
  | _ => do
    let (e, r) ← parseOrE (4 * toks.length + 8) toks
    match r with
    | [] => Except.ok (some e)
    | _ => Except.error (PyErr.synErr "invalid syntax")

/-- Embeds `node.s.startswith('[') and node.s.endswith(']')` (line 59): the check
`visit_Str` uses to recognise a Solr range literal.  On an empty string
both CPython calls return `False`, as here. -/
def bracketShapedL (s : List Char) : Bool :=
  s.head? = some '[' && s.getLast? = some ']'

mutual
/-- Embeds `ClauseVisitor` (lines 18-64) as a function from a node to the
`nodestack` it appends while visiting that node.  `generic_visit` visits
the `values` children of a `BoolOp` in order before the `op` field (the
field order is reversed at line 34, and the `op` object itself appends
nothing); `visit_BoolOp` then appends `type(node.op).__name__`, i.e.
`"Or"` or `"And"`; `visit_Name` appends `node.id`; `visit_Str` appends the
string verbatim when it is bracket shaped and re-wrapped in double quotes
otherwise (lines 59-64); a `UnaryOp` node has no visitor of its own, so
only its operand is visited and the `Not` leaves no trace; a `Num` node
appends nothing. -/
def visitNode : PyAst → List (List Char)
  | PyAst.pyName id => [id]
  | PyAst.pyStr s => [if bracketShapedL s then s else '"' :: s ++ ['"']]
  | PyAst.pyNum _ => []
  | PyAst.pyBool op values =>
    visitNodeList values ++ [if op then ['O', 'r'] else ['A', 'n', 'd']]
  | PyAst.pyNot operand => visitNode operand

/-- Visit the values of a `BoolOp` left to right. -/
def visitNodeList : PyAstList → List (List Char)
  | PyAstList.nil => []
  | PyAstList.cons a rest => visitNode a ++ visitNodeList rest
end

/-- Embeds `visitor.visit(tree)` on the whole `Module` (line 148): an empty body
contributes nothing, otherwise the single expression statement is
visited. -/
def visitTop : Option PyAst → List (List Char)
  | none => []
  | some a => visitNode a

/-- The `"__exact"` haystack field suffix appended at line 167. -/
def exactSuffix : List Char :=
  ['_', '_', 'e', 'x', 'a', 'c', 't']

/-- Embeds `node.strip('"')` (line 166): remove every leading and every trailing
double-quote byte. -/
def stripQuotes (s : List Char) : List Char :=
  (((s.dropWhile (fun c => c = '"')).reverse.dropWhile (fun c => c = '"')).reverse)

/-- The instruction loop of `build_sq` (lines 150-170).  The Lean list
holds the Python `nodelist` reversed, so Python's append is cons,
`nodelist[-2:]` is the first two entries, and
`result = reduce(opers[node], nodelist[-2:]); nodelist.pop();
nodelist[-1] = result` maps `a :: b :: t` to `f b a :: t`.  With fewer
than two entries Python would raise from `reduce` on an empty slice or
from the `nodelist[-1]` assignment on an emptied list; the module never
reaches those states from clause strings made of names and strings, but
they are kept for fidelity.  A non-operator instruction is turned into a
leaf `SQ`, with the `__exact` field used exactly when the instruction
starts and ends with a double quote (lines 165-170). -/
def buildLoop (field : List Char) : List (List Char) → List SQ → Except PyErr (List SQ)
  | [], nl => Except.ok nl
  | node :: rest, nl =>
    if node = ['O', 'r'] || node = ['A', 'n', 'd'] then
      let f := if node = ['O', 'r'] then SQ.or else SQ.and
      match nl with
      | a :: b :: t => buildLoop field rest (f b a :: t)
      | [_] => Except.error (PyErr.indexError "list assignment index out of range")
      | [] => Except.error (PyErr.typeError "reduce() of empty sequence with no initial value")
    else
      let sq :=
        if node.head? = some '"' && node.getLast? = some '"' then
          SQ.leaf (field ++ exactSuffix) (stripQuotes node)
        else SQ.leaf field node
      buildLoop field rest (sq :: nl)

/-- Lines 177-180: `if len(nodelist) > 1: return reduce(oper, nodelist)
else: return nodelist[0]`.  `reduce` left-folds over the Python-ordered
list (the reverse of the Lean accumulator); an empty `nodelist` raises
`IndexError` from `nodelist[0]`. -/
def buildFinal (oper : SQ → SQ → SQ) (nl : List SQ) : Except PyErr SQ :=
  match nl.reverse with
  | [] => Except.error (PyErr.indexError "list index out of range")
  | [x] => Except.ok x
  | x :: xs => Except.ok (xs.foldl oper x)

/-- Embeds `build_sq(qs, field, oper)` (lines 125-180) on byte strings: lower the
uppercase `OR` / `AND` keywords by substring replacement, run `ast.parse`,
flatten the tree into the visitor's instruction stream, execute the
instruction loop and combine whatever is left with `oper`
(default `operator.or_`). -/
def buildSqL (qs field : List Char) (oper : SQ → SQ → SQ) : Except PyErr SQ := do
  let tree ← astParse (mangleL qs)
  let nl ← buildLoop field (visitTop tree) []
  buildFinal oper nl

/-- The constant `HAYSTACK_DOCUMENT_FIELD = "text"` (line 13). -/
def HAYSTACK_DOCUMENT_FIELD : List Char :=
  ['t', 'e', 'x', 't']

/-- Wrapper for `build_sq` with the source's default arguments
(`field=HAYSTACK_DOCUMENT_FIELD`, `oper=operator.or_`), over `String`. -/
def build_sq (qs : String) (field : String := "text") : Except PyErr SQ :=
  buildSqL qs.toList field.toList SQ.or

/-- One scanning step bundle for `re.split("(\w+):", qs)`: the maximal run
of word characters starting the input, and the remainder. -/
def wordSpan (l : List Char) : List Char × List Char :=
  (l.takeWhile isWordCharL, l.dropWhile isWordCharL)

/-- Fueled scanner for `re.split("(\w+):", qs)` (lines 85-86).  `acc`
holds (reversed) the text since the previous match.  At a position that
starts a word-character run the regex can only match if the full run is
followed by `:` — a shorter greedy retreat would put a word character
where `:` must be — so on `w : ':' :: r` we emit the gap and the captured
group and continue after the colon, and otherwise the run is ordinary
text.  The fuel is at least the input length plus one, and every step
consumes at least one character, so the zero-fuel branch is
unreachable. -/
def splitGo : Nat → List Char → List Char → List (List Char)
  | 0, acc, l => [acc.reverse ++ l]
  | _ + 1, acc, [] => [acc.reverse]
  | f + 1, acc, c :: rest =>
    if isWordCharL c then
      match wordSpan (c :: rest) with
      | (w, ':' :: r2) => acc.reverse :: w :: splitGo f [] r2
      | (w, r2) => splitGo f (w.reverse ++ acc) r2
    else splitGo f (c :: acc) rest

/-- Embeds `re.split("(\w+):", qs)`: the list of texts between matches,
interleaved with the captured field names.  Always non-empty (the text
before the first match is always present, possibly empty). -/
def reSplitFieldColon (l : List Char) : List (List Char) :=
  splitGo (l.length + 1) [] l

/-- Embeds `clauses[::2]`: every second element starting at index 0. -/
def everyOther : List (List Char) → List (List Char)
  | [] => []
  | [x] => [x]
  | x :: _ :: rest => x :: everyOther rest

/-- Embeds `clauses[1::2]`: every second element starting at index 1. -/
def everyOtherOdd : List (List Char) → List (List Char)
  | [] => []
  | _ :: rest => everyOther rest

/-- Lines 83-98 of `parse`: split the querystring, pop the leading
field-less content, zip the remaining elements into `(field, term)`
pairs (Python `zip` truncates to the shorter list) and append a pair for
the leading content on the `HAYSTACK_DOCUMENT_FIELD` when it is
non-empty. -/
def splitPairs (qs : List Char) : List (List Char × List Char) :=
  match reSplitFieldColon qs with
  | [] => []
  | content :: rest =>
    let pairs := (everyOther rest).zip (everyOtherOdd rest)
    if content = [] then pairs else pairs ++ [(HAYSTACK_DOCUMENT_FIELD, content)]

/-- Embeds `field_pairs(pairs, micromanage)` (lines 107-123): one `SQ` per pair —
`build_sq(pair.term, field=pair.field)` under `micromanage=True`, the
verbatim leaf `SQ([pair.field, pair.term])` otherwise.  The Python
generator is consumed exactly once by `reduce` inside `parse`; evaluating
it eagerly is observationally the same there, including which error
escapes first. -/
def fieldPairsE (pairs : List (List Char × List Char)) (micromanage : Bool) :
    Except PyErr (List SQ) :=
  match pairs with
  | [] => Except.ok []
  | p :: rest => do
    let x ← bif micromanage then buildSqL p.2 p.1 SQ.or else Except.ok (SQ.leaf p.1 p.2)
    let xs ← fieldPairsE rest micromanage
    Except.ok (x :: xs)

/-- The process-wide `HAYSTACK_DEFAULT_OPERATOR` configuration value
(line 14, read from Django settings with default `"AND"`).  The source's
`OPERATORS` dict also maps `"NOT"` to the unary `operator.not_`, which
`reduce` would crash on for two or more pairs; only the two binary
choices are meaningful configurations and only they are modelled. -/
inductive DefOp : Type where
  | AND : DefOp
  | OR : DefOp
deriving DecidableEq, Repr

/-- Lookup `OPERATORS[HAYSTACK_DEFAULT_OPERATOR]` for the two binary entries. -/
def opFn : DefOp → SQ → SQ → SQ
  | DefOp.AND => SQ.and
  | DefOp.OR => SQ.or

/-- Embeds `parse(qs, micromanage)` (lines 67-105) on byte strings.  Note the
source's `if top_sq:` at line 102 tests the generator object returned by
`field_pairs`, and a generator object is always truthy, so the
`return None` branch at line 105 is dead code: with zero pairs the call
proceeds into `reduce(...)`, which raises `TypeError` on the empty
sequence.  The `Option` in the result type mirrors the declared (but
unreachable) `None` result; `Except.ok none` is never produced. -/
def parseL (qs : List Char) (micromanage : Bool) (defaultOperator : DefOp) :
    Except PyErr (Option SQ) := do
  let sqs ← fieldPairsE (splitPairs qs) micromanage
  match sqs with
  | [] => Except.error (PyErr.typeError "reduce() of empty sequence with no initial value")
  | x :: xs => Except.ok (some (xs.foldl (opFn defaultOperator) x))

/-- Wrapper for `parse` with the source's default arguments over `String`
(`micromanage=False`, `HAYSTACK_DEFAULT_OPERATOR` defaulting to
`"AND"`). -/
def parse (qs : String) (micromanage : Bool := false)
    (defaultOperator : DefOp := DefOp.AND) : Except PyErr (Option SQ) :=
  parseL qs.toList micromanage defaultOperator

/-! ## Lemmas about the keyword-lowering substring replacements -/

/-- A cons cell that does not start an `OR` occurrence is copied
unchanged. -/
lemma replOR_cons (c : Char) (l : List Char)
    (h : ∀ rest, c = 'O' → l = 'R' :: rest → False) :
    replOR (c :: l) = c :: replOR l := by
  rw [replOR.eq_def]
  split
  · rename_i rest heq
    rw [List.cons.injEq] at heq
    exact (h rest heq.1 heq.2).elim
  · rename_i c2 rest hex heq
    rw [List.cons.injEq] at heq
    rw [heq.1, heq.2]
  · rename_i heq
    exact absurd heq (by simp)

/-- A cons cell that does not start an `AND` occurrence is copied
unchanged. -/
lemma replAND_cons (c : Char) (l : List Char)
    (h : ∀ rest, c = 'A' → l = 'N' :: 'D' :: rest → False) :
    replAND (c :: l) = c :: replAND l := by
  rw [replAND.eq_def]
  split
  · rename_i rest heq
    rw [List.cons.injEq] at heq
    exact (h rest heq.1 heq.2).elim
  · rename_i c2 rest hex heq
    rw [List.cons.injEq] at heq
    rw [heq.1, heq.2]
  · rename_i heq
    exact absurd heq (by simp)

/-- A string with no `OR` occurrence is left unchanged by the first
replacement. -/
lemma replOR_eq_self (l : List Char) (h : containsOR l = false) : replOR l = l := by
  induction l using replOR.induct with
  | case1 rest ih => simp [containsOR] at h
  | case2 c rest h2 ih =>
    rw [replOR_cons c rest h2]
    rw [containsOR.eq_def] at h
    split at h
    · exact absurd h (by simp)
    · rename_i c2 rest2 hex heq
      rw [List.cons.injEq] at heq
      rw [ih (heq.2 ▸ h)]
    · rename_i heq
      exact absurd heq (by simp)
  | case3 => rfl

/-- A string with no `AND` occurrence is left unchanged by the second
replacement. -/
lemma replAND_eq_self (l : List Char) (h : containsAND l = false) : replAND l = l := by
  induction l using replAND.induct with
  | case1 rest ih => simp [containsAND] at h
  | case2 c rest h2 ih =>
    rw [replAND_cons c rest h2]
    rw [containsAND.eq_def] at h
    split at h
    · exact absurd h (by simp)
    · rename_i c2 rest2 hex heq
      rw [List.cons.injEq] at heq
      rw [ih (heq.2 ▸ h)]
    · rename_i heq
      exact absurd heq (by simp)
  | case3 => rfl

/-- The `OR` replacement distributes over an append whose right part
starts with a character other than `R`: no occurrence can span the
boundary. -/
lemma replOR_append_sep (c : Char) (hc : c ≠ 'R') (xs ys : List Char) :
    replOR (xs ++ c :: ys) = replOR xs ++ replOR (c :: ys) := by
  induction xs using replOR.induct with
  | case1 rest ih =>
    rw [List.cons_append, List.cons_append]
    rw [show replOR ('O' :: 'R' :: (rest ++ c :: ys)) =
      'o' :: 'r' :: replOR (rest ++ c :: ys) from rfl]
    rw [ih]
    rfl
  | case2 d rest h2 ih =>
    rw [List.cons_append]
    rw [replOR_cons d (rest ++ c :: ys) ?hside]
    · rw [ih, replOR_cons d rest h2, List.cons_append]
    case hside =>
      intro tail hd htail
      match rest, htail with
      | [], htail =>
        rw [List.nil_append, List.cons.injEq] at htail
        exact hc htail.1
      | r :: rest2, htail =>
        rw [List.cons_append, List.cons.injEq] at htail
        exact h2 rest2 hd (by rw [htail.1])
  | case3 => rfl

/-- The `AND` replacement distributes over an append whose right part
starts with a character that is neither `N` nor `D`: no occurrence can
span the boundary. -/
lemma replAND_append_sep (c : Char) (hc1 : c ≠ 'N') (hc2 : c ≠ 'D') (xs ys : List Char) :
    replAND (xs ++ c :: ys) = replAND xs ++ replAND (c :: ys) := by
  induction xs using replAND.induct with
  | case1 rest ih =>
    rw [List.cons_append, List.cons_append, List.cons_append]
    rw [show replAND ('A' :: 'N' :: 'D' :: (rest ++ c :: ys)) =
      'a' :: 'n' :: 'd' :: replAND (rest ++ c :: ys) from rfl]
    rw [ih]
    rfl
  | case2 d rest h2 ih =>
    rw [List.cons_append]
    rw [replAND_cons d (rest ++ c :: ys) ?hside]
    · rw [ih, replAND_cons d rest h2, List.cons_append]
    case hside =>
      intro tail hd htail
      match rest, htail with
      | [], htail =>
        rw [List.nil_append, List.cons.injEq] at htail
        exact hc1 htail.1
      | [r], htail =>
        rw [List.cons_append, List.nil_append, List.cons.injEq, List.cons.injEq] at htail
        exact hc2 htail.2.1
      | r1 :: r2 :: rest2, htail =>
        rw [List.cons_append, List.cons_append, List.cons.injEq, List.cons.injEq] at htail
        exact h2 rest2 hd (by rw [htail.1, htail.2.1])
  | case3 => rfl

/-- The `OR` replacement only writes word characters over word
characters. -/
lemma replOR_wordChar (l : List Char) (h : ∀ a ∈ l, isWordCharL a = true) :
    ∀ a ∈ replOR l, isWordCharL a = true := by
  induction l using replOR.induct with
  | case1 rest ih =>
    rw [show replOR ('O' :: 'R' :: rest) = 'o' :: 'r' :: replOR rest from rfl]
    intro a ha
    rw [List.mem_cons, List.mem_cons] at ha
    rcases ha with rfl | rfl | ha
    · decide
    · decide
    · exact ih (fun b hb => h b (by simp [hb])) a ha
  | case2 c rest h2 ih =>
    rw [replOR_cons c rest h2]
    intro a ha
    rw [List.mem_cons] at ha
    rcases ha with rfl | ha
    · exact h _ (by simp)
    · exact ih (fun b hb => h b (by simp [hb])) a ha
  | case3 => exact h

/-- The `AND` replacement only writes word characters over word
characters. -/
lemma replAND_wordChar (l : List Char) (h : ∀ a ∈ l, isWordCharL a = true) :
    ∀ a ∈ replAND l, isWordCharL a = true := by
  induction l using replAND.induct with
  | case1 rest ih =>
    rw [show replAND ('A' :: 'N' :: 'D' :: rest) = 'a' :: 'n' :: 'd' :: replAND rest from rfl]
    intro a ha
    rw [List.mem_cons, List.mem_cons, List.mem_cons] at ha
    rcases ha with rfl | rfl | rfl | ha
    · decide
    · decide
    · decide
    · exact ih (fun b hb => h b (by simp [hb])) a ha
  | case2 c rest h2 ih =>
    rw [replAND_cons c rest h2]
    intro a ha
    rw [List.mem_cons] at ha
    rcases ha with rfl | ha
    · exact h _ (by simp)
    · exact ih (fun b hb => h b (by simp [hb])) a ha
  | case3 => exact h

/-- The `OR` replacement preserves length (pattern and replacement have
the same length). -/
lemma replOR_length (l : List Char) : (replOR l).length = l.length := by
  induction l using replOR.induct with
  | case1 rest ih =>
    rw [show replOR ('O' :: 'R' :: rest) = 'o' :: 'r' :: replOR rest from rfl]
    simp [ih]
  | case2 c rest h2 ih =>
    rw [replOR_cons c rest h2]
    simp [ih]
  | case3 => rfl

/-- The `AND` replacement preserves length. -/
lemma replAND_length (l : List Char) : (replAND l).length = l.length := by
  induction l using replAND.induct with
  | case1 rest ih =>
    rw [show replAND ('A' :: 'N' :: 'D' :: rest) = 'a' :: 'n' :: 'd' :: replAND rest from rfl]
    simp [ih]
  | case2 c rest h2 ih =>
    rw [replAND_cons c rest h2]
    simp [ih]
  | case3 => rfl

/-- The composite keyword lowering keeps word strings word shaped. -/
lemma mangleL_wordChar (l : List Char) (h : ∀ a ∈ l, isWordCharL a = true) :
    ∀ a ∈ mangleL l, isWordCharL a = true :=
  replAND_wordChar (replOR l) (replOR_wordChar l h)

/-- The composite keyword lowering preserves length, hence
non-emptiness. -/
lemma mangleL_length (l : List Char) : (mangleL l).length = l.length := by
  rw [mangleL, replAND_length, replOR_length]

/-- The composite keyword lowering of a string containing neither `OR`
nor `AND` is the identity. -/
lemma mangleL_eq_self (l : List Char) (h1 : containsOR l = false)
    (h2 : containsAND l = false) : mangleL l = l := by
  rw [mangleL, replOR_eq_self l h1, replAND_eq_self l h2]

/-- A non-empty string stays non-empty under the keyword lowering. -/
lemma mangleL_ne_nil (l : List Char) (h : l ≠ []) : mangleL l ≠ [] := by
  intro hcon
  have := mangleL_length l
  rw [hcon] at this
  exact h (List.length_eq_zero.mp this.symm)

/-- A byte other than `o` and `r` absent from a string stays absent after
the `OR` replacement (the replacement writes only those two bytes). -/
lemma replOR_preserves_ne (x : Char) (hx1 : x ≠ 'o') (hx2 : x ≠ 'r')
    (l : List Char) (h : ∀ a ∈ l, a ≠ x) : ∀ a ∈ replOR l, a ≠ x := by
  induction l using replOR.induct with
  | case1 rest ih =>
    rw [show replOR ('O' :: 'R' :: rest) = 'o' :: 'r' :: replOR rest from rfl]
    intro a ha
    rw [List.mem_cons, List.mem_cons] at ha
    rcases ha with rfl | rfl | ha
    · exact Ne.symm hx1
    · exact Ne.symm hx2
    · exact ih (fun b hb => h b (by simp [hb])) a ha
  | case2 c rest h2 ih =>
    rw [replOR_cons c rest h2]
    intro a ha
    rw [List.mem_cons] at ha
    rcases ha with rfl | ha
    · exact h _ (by simp)
    · exact ih (fun b hb => h b (by simp [hb])) a ha
  | case3 => exact h

/-- A byte other than `a`, `n` and `d` absent from a string stays absent
after the `AND` replacement. -/
lemma replAND_preserves_ne (x : Char) (hx1 : x ≠ 'a') (hx2 : x ≠ 'n') (hx3 : x ≠ 'd')
    (l : List Char) (h : ∀ a ∈ l, a ≠ x) : ∀ a ∈ replAND l, a ≠ x := by
  induction l using replAND.induct with
  | case1 rest ih =>
    rw [show replAND ('A' :: 'N' :: 'D' :: rest) = 'a' :: 'n' :: 'd' :: replAND rest from rfl]
    intro a ha
    rw [List.mem_cons, List.mem_cons, List.mem_cons] at ha
    rcases ha with rfl | rfl | rfl | ha
    · exact Ne.symm hx1
    · exact Ne.symm hx2
    · exact Ne.symm hx3
    · exact ih (fun b hb => h b (by simp [hb])) a ha
  | case2 c rest h2 ih =>
    rw [replAND_cons c rest h2]
    intro a ha
    rw [List.mem_cons] at ha
    rcases ha with rfl | ha
    · exact h _ (by simp)
    · exact ih (fun b hb => h b (by simp [hb])) a ha
  | case3 => exact h

/-- A byte the keyword lowering never writes stays absent under it. -/
lemma mangleL_preserves_ne (x : Char) (h1 : x ≠ 'o') (h2 : x ≠ 'r') (h3 : x ≠ 'a')
    (h4 : x ≠ 'n') (h5 : x ≠ 'd') (l : List Char) (h : ∀ a ∈ l, a ≠ x) :
    ∀ a ∈ mangleL l, a ≠ x :=
  replAND_preserves_ne x h3 h4 h5 (replOR l) (replOR_preserves_ne x h1 h2 l h)

/-- The keyword lowering of a double-quoted clause lowers exactly the
body: no `OR` or `AND` occurrence can span a quote. -/
lemma mangle_quoted (s : List Char) :
    mangleL ('"' :: s ++ ['"']) = '"' :: mangleL s ++ ['"'] := by
  rw [List.cons_append, mangleL]
  rw [replOR_cons '"' (s ++ ['"']) (by intro r hcon _; exact absurd hcon (by decide))]
  rw [replOR_append_sep '"' (by decide) s []]
  rw [show replOR ['"'] = ['"'] from rfl]
  rw [replAND_cons '"' (replOR s ++ ['"']) (by intro r hcon _; exact absurd hcon (by decide))]
  rw [replAND_append_sep '"' (by decide) (by decide) (replOR s) []]
  rw [show replAND ['"'] = ['"'] from rfl]
  rfl

/-! ## Lemmas about the tokenizer -/

/-- A word character is none of the tokenizer's punctuation bytes. -/
lemma wordChar_ne (c : Char) (hc : isWordCharL c = true) :
    c ≠ ' ' ∧ c ≠ '(' ∧ c ≠ ')' ∧ c ≠ '"' := by
  refine ⟨?_, ?_, ?_, ?_⟩ <;> (rintro rfl; exact absurd hc (by decide))

/-- In scanning mode a word character opens a word run. -/
lemma tokM_norm_word_start (c : Char) (cs : List Char) (hc : isWordCharL c = true) :
    tokM TokMode.norm (c :: cs) = tokM (TokMode.word [c]) cs := by
  obtain ⟨h1, h2, h3, h4⟩ := wordChar_ne c hc
  simp [tokM, h1, h2, h3, h4, hc]

/-- Inside a word run a word character is accumulated. -/
lemma tokM_word_step (c : Char) (acc cs : List Char) (hc : isWordCharL c = true) :
    tokM (TokMode.word acc) (c :: cs) = tokM (TokMode.word (c :: acc)) cs := by
  simp [tokM, hc]

/-- A whole run of word characters is accumulated. -/
lemma tokM_word_accum (w : List Char) (hall : ∀ a ∈ w, isWordCharL a = true) :
    ∀ acc cs, tokM (TokMode.word acc) (w ++ cs) = tokM (TokMode.word (w.reverse ++ acc)) cs := by
  induction w with
  | nil => intro acc cs; simp
  | cons c w2 ih =>
    intro acc cs
    rw [List.cons_append, tokM_word_step c acc (w2 ++ cs) (hall c (by simp))]
    rw [ih (fun a ha => hall a (by simp [ha])) (c :: acc) cs]
    simp

/-- Tokenizing a non-empty word run followed by a space: the run is
classified and scanning resumes after the space. -/
lemma tokenize_word_space (w cs : List Char) (hne : w ≠ [])
    (hall : ∀ a ∈ w, isWordCharL a = true) :
    tokM TokMode.norm (w ++ ' ' :: cs) = (do
      let t ← classifyWord w
      let ts ← tokM TokMode.norm cs
      Except.ok (t :: ts)) := by
  obtain ⟨c, w2, rfl⟩ := List.exists_cons_of_ne_nil hne
  rw [List.cons_append, tokM_norm_word_start c (w2 ++ ' ' :: cs) (hall c (by simp))]
  rw [tokM_word_accum w2 (fun a ha => hall a (by simp [ha])) [c] (' ' :: cs)]
  rw [show tokM (TokMode.word (w2.reverse ++ [c])) (' ' :: cs) = (do
    let t ← classifyWord (w2.reverse ++ [c]).reverse
    let ts ← tokM TokMode.norm cs
    Except.ok (t :: ts)) from rfl]
  simp

/-- Tokenizing a non-empty word run followed by a closing parenthesis. -/
lemma tokenize_word_rpar (w cs : List Char) (hne : w ≠ [])
    (hall : ∀ a ∈ w, isWordCharL a = true) :
    tokM TokMode.norm (w ++ ')' :: cs) = (do
      let t ← classifyWord w
      let ts ← tokM TokMode.norm cs
      Except.ok (t :: Tok.rpar :: ts)) := by
  obtain ⟨c, w2, rfl⟩ := List.exists_cons_of_ne_nil hne
  rw [List.cons_append, tokM_norm_word_start c (w2 ++ ')' :: cs) (hall c (by simp))]
  rw [tokM_word_accum w2 (fun a ha => hall a (by simp [ha])) [c] (')' :: cs)]
  rw [show tokM (TokMode.word (w2.reverse ++ [c])) (')' :: cs) = (do
    let t ← classifyWord (w2.reverse ++ [c]).reverse
    let ts ← tokM TokMode.norm cs
    Except.ok (t :: Tok.rpar :: ts)) from rfl]
  simp

/-- Tokenizing a non-empty word run at the end of the input. -/
lemma tokenize_word_eof (w : List Char) (hne : w ≠ [])
    (hall : ∀ a ∈ w, isWordCharL a = true) :
    tokM TokMode.norm w = (do
      let t ← classifyWord w
      Except.ok [t]) := by
  obtain ⟨c, w2, rfl⟩ := List.exists_cons_of_ne_nil hne
  rw [show (c :: w2 : List Char) = c :: (w2 ++ []) by simp]
  rw [tokM_norm_word_start c (w2 ++ []) (hall c (by simp))]
  rw [tokM_word_accum w2 (fun a ha => hall a (by simp [ha])) [c] []]
  rw [show tokM (TokMode.word (w2.reverse ++ [c])) [] = (do
    let t ← classifyWord (w2.reverse ++ [c]).reverse
    Except.ok [t]) from rfl]
  simp

/-- The escape decoder is the identity on a backslash-free body. -/
lemma decEsc_plain (l : List Char) (hb : ∀ a ∈ l, a ≠ '\\') :
    decEsc l = Except.ok l := by
  induction l with
  | nil => rfl
  | cons c cs ih =>
    rw [show decEsc (c :: cs) =
      (if c = '\\' then decEscSlash cs else (fun l => c :: l) <$> decEsc cs) from rfl]
    rw [if_neg (hb c (by simp))]
    rw [ih (fun a ha => hb a (by simp [ha]))]
    rfl

/-- Inside a string literal, a byte that is not a quote, backslash or
line end is accumulated verbatim. -/
lemma tokM_str_step (acc : List Char) (c : Char) (cs : List Char)
    (h1 : c ≠ '"') (h2 : c ≠ '\\') (h3 : c ≠ '\n') (h4 : c ≠ '\r') :
    tokM (TokMode.str acc) (c :: cs) = tokM (TokMode.str (c :: acc)) cs := by
  simp only [tokM]
  rw [if_neg h1, if_neg h3, if_neg h4, if_neg h2]

/-- Scanning a string body free of quotes, backslashes and line ends up
to its closing quote: the accumulated raw body is decode-free. -/
lemma tokM_str_accum (s : List Char) (hq : ∀ a ∈ s, a ≠ '"')
    (hb : ∀ a ∈ s, a ≠ '\\') (hn : ∀ a ∈ s, a ≠ '\n') (hr : ∀ a ∈ s, a ≠ '\r') :
    ∀ acc cs, (∀ a ∈ acc, a ≠ '\\') →
      tokM (TokMode.str acc) (s ++ '"' :: cs) = (do
        let ts ← tokM TokMode.norm cs
        Except.ok (Tok.str (acc.reverse ++ s) :: ts)) := by
  induction s with
  | nil =>
    intro acc cs hacc
    rw [List.nil_append]
    rw [show tokM (TokMode.str acc) ('"' :: cs) = (do
      let body ← decEsc acc.reverse
      let ts ← tokM TokMode.norm cs
      Except.ok (Tok.str body :: ts)) from rfl]
    rw [decEsc_plain acc.reverse (fun a ha => hacc a (List.mem_reverse.mp ha))]
    rw [List.append_nil]
    rfl
  | cons c s2 ih =>
    intro acc cs hacc
    rw [List.cons_append]
    rw [tokM_str_step acc c (s2 ++ '"' :: cs) (hq c (by simp)) (hb c (by simp))
      (hn c (by simp)) (hr c (by simp))]
    rw [ih (fun a ha => hq a (by simp [ha])) (fun a ha => hb a (by simp [ha]))
      (fun a ha => hn a (by simp [ha])) (fun a ha => hr a (by simp [ha])) (c :: acc) cs
      (by intro a ha
          rw [List.mem_cons] at ha
          rcases ha with rfl | ha
          · exact hb a (by simp)
          · exact hacc a ha)]
    simp

/-- Tokenizing a double-quoted literal whose body is free of quotes,
backslashes and line ends: the body is kept verbatim (no escape in it to
decode). -/
lemma tokenize_quoted (s cs : List Char) (hq : ∀ a ∈ s, a ≠ '"')
    (hb : ∀ a ∈ s, a ≠ '\\') (hn : ∀ a ∈ s, a ≠ '\n') (hr : ∀ a ∈ s, a ≠ '\r') :
    tokM TokMode.norm ('"' :: s ++ '"' :: cs) = (do
      let ts ← tokM TokMode.norm cs
      Except.ok (Tok.str s :: ts)) := by
  rw [show tokM TokMode.norm ('"' :: s ++ '"' :: cs) =
    tokM (TokMode.str []) (s ++ '"' :: cs) from rfl]
  rw [tokM_str_accum s hq hb hn hr [] cs (by intro a ha; cases ha)]
  simp

/-! ## Lemmas about the instruction loop of build_sq -/

/-- A quote-free string is untouched by a leading `strip('"')` pass. -/
lemma dropWhile_quote_eq_self (l : List Char) (h : ∀ a ∈ l, a ≠ '"') :
    l.dropWhile (fun c => c = '"') = l := by
  cases l with
  | nil => rfl
  | cons c l2 =>
    rw [List.dropWhile_cons]
    simp [h c (by simp)]

/-- Applying `strip('"')` to a quoted literal with quote-free body returns the
body. -/
lemma stripQuotes_wrap (s : List Char) (hq : ∀ a ∈ s, a ≠ '"') :
    stripQuotes ('"' :: s ++ ['"']) = s := by
  cases s with
  | nil => rfl
  | cons c s2 =>
    have hc : c ≠ '"' := hq c (by simp)
    have hmix : ∀ a ∈ s2.reverse ++ [c], a ≠ '"' := by
      intro a ha
      rcases List.mem_append.mp ha with ha | ha
      · exact hq a (by simp [List.mem_reverse.mp ha])
      · rw [List.mem_singleton.mp ha]; exact hc
    rw [stripQuotes]
    rw [List.cons_append]
    rw [List.dropWhile_cons]
    rw [if_pos (by simp)]
    rw [List.cons_append]
    rw [List.dropWhile_cons]
    rw [if_neg (by simp [hc])]
    rw [List.reverse_cons, List.reverse_append]
    rw [show (['"'] : List Char).reverse = ['"'] from rfl]
    rw [List.singleton_append]
    rw [List.cons_append]
    rw [List.dropWhile_cons]
    rw [if_pos (by simp)]
    rw [dropWhile_quote_eq_self (s2.reverse ++ [c]) hmix]
    rw [List.reverse_append, List.reverse_reverse]
    rfl

/-- An instruction that is neither `"Or"` nor `"And"` and does not start
with a quote becomes a plain leaf on the base field. -/
lemma buildLoop_plain (field node : List Char) (rest : List (List Char)) (nl : List SQ)
    (h1 : node ≠ ['O', 'r']) (h2 : node ≠ ['A', 'n', 'd'])
    (h3 : node.head? ≠ some '"') :
    buildLoop field (node :: rest) nl = buildLoop field rest (SQ.leaf field node :: nl) := by
  rw [buildLoop]
  rw [if_neg (by simp [h1, h2])]
  rw [if_neg (by simp [h3])]

/-- An instruction wrapped in double quotes (with quote-free body) becomes
an exact-match leaf with the quotes stripped. -/
lemma buildLoop_quoted (field s : List Char) (rest : List (List Char)) (nl : List SQ)
    (hq : ∀ a ∈ s, a ≠ '"') :
    buildLoop field (('"' :: s ++ ['"']) :: rest) nl =
      buildLoop field rest (SQ.leaf (field ++ exactSuffix) s :: nl) := by
  have hlast : ('"' :: (s ++ ['"'])).getLast? = some '"' := by
    rw [← List.cons_append]
    exact List.getLast?_concat _
  rw [buildLoop]
  rw [if_neg (by simp)]
  rw [if_pos (by simp [hlast])]
  rw [stripQuotes_wrap s hq]

/-- An `"Or"` instruction combines the two most recent queries with the
OR combinator. -/
lemma buildLoop_op_or (field : List Char) (rest : List (List Char)) (a b : SQ) (t : List SQ) :
    buildLoop field (['O', 'r'] :: rest) (a :: b :: t) =
      buildLoop field rest (SQ.or b a :: t) := by
  rw [buildLoop]
  rw [if_pos (by simp)]
  rfl

/-- An `"And"` instruction combines the two most recent queries with the
AND combinator. -/
lemma buildLoop_op_and (field : List Char) (rest : List (List Char)) (a b : SQ) (t : List SQ) :
    buildLoop field (['A', 'n', 'd'] :: rest) (a :: b :: t) =
      buildLoop field rest (SQ.and b a :: t) := by
  rw [buildLoop]
  rw [if_pos (by simp)]
  rfl

/-! ## Pipeline lemmas for build_sq on single literals -/

/-- A literal token of the clause grammar: non-empty, made of word
characters, still classified as a `NAME` after the keyword lowering of
line 144 (so its lowered form is not one of the keywords `or`, `and`,
`not` and does not start with a digit) and not colliding with the
instruction tags `"Or"` / `"And"` that `build_sq`'s loop interprets as
operators. -/
instance {e a : Type} [DecidableEq e] [DecidableEq a] : DecidableEq (Except e a) := by
  intro x y
  cases x <;> cases y <;> first
    | (rename_i u v
       exact if h : u = v then isTrue (by rw [h]) else isFalse (by intro hc; cases hc; exact h rfl))
    | exact isFalse (by intro h; cases h)

def PlainLit (w : List Char) : Prop :=
  w ≠ [] ∧ (∀ a ∈ w, isWordCharL a = true) ∧
    classifyWord (mangleL w) = Except.ok (Tok.ident (mangleL w)) ∧
    mangleL w ≠ ['O', 'r'] ∧ mangleL w ≠ ['A', 'n', 'd']

instance (w : List Char) : Decidable (PlainLit w) := by
  unfold PlainLit
  infer_instance

/-- Running `build_sq` on a clause consisting of one plain literal produces one
leaf on the base field whose term is the keyword-lowered literal. -/
lemma buildSq_word (w f : List Char) (oper : SQ → SQ → SQ) (hw : PlainLit w) :
    buildSqL w f oper = Except.ok (SQ.leaf f (mangleL w)) := by
  obtain ⟨hne, hall, hcl, hOr, hAnd⟩ := hw
  have hne2 : mangleL w ≠ [] := mangleL_ne_nil w hne
  have hall2 : ∀ a ∈ mangleL w, isWordCharL a = true := mangleL_wordChar w hall
  have htok : tokenize (mangleL w) = Except.ok [Tok.ident (mangleL w)] := by
    rw [tokenize, tokenize_word_eof (mangleL w) hne2 hall2, hcl]
    rfl
  have hast : astParse (mangleL w) = Except.ok (some (PyAst.pyName (mangleL w))) := by
    unfold astParse
    rw [htok]
    rfl
  have hhead : (mangleL w).head? ≠ some '"' := by
    obtain ⟨c, w2, heq⟩ := List.exists_cons_of_ne_nil hne2
    have hc : isWordCharL c = true := hall2 c (by rw [heq]; exact List.mem_cons_self c w2)
    rw [heq]
    intro hcon
    simp only [List.head?_cons, Option.some.injEq] at hcon
    rw [hcon] at hc
    exact absurd hc (by decide)
  unfold buildSqL
  rw [hast]
  show Except.bind (buildLoop f [mangleL w] []) (fun nl => buildFinal oper nl) =
    Except.ok (SQ.leaf f (mangleL w))
  rw [buildLoop_plain f (mangleL w) [] [] hOr hAnd hhead]
  rfl

/-- Running `build_sq` on a clause consisting of one double-quoted
literal whose body is free of quotes, backslashes and line ends: the
keyword lowering acts on the body inside the quotes, a bracket-shaped
(lowered) body stays verbatim on the base field, and any other body
becomes an exact-match leaf with the quotes stripped. -/
lemma buildSq_quoted_gen (s f : List Char) (oper : SQ → SQ → SQ)
    (hq : ∀ a ∈ s, a ≠ '"') (hb : ∀ a ∈ s, a ≠ '\\')
    (hn : ∀ a ∈ s, a ≠ '\n') (hr : ∀ a ∈ s, a ≠ '\r') :
    buildSqL ('"' :: s ++ ['"']) f oper =
      Except.ok (if bracketShapedL (mangleL s) then SQ.leaf f (mangleL s)
        else SQ.leaf (f ++ exactSuffix) (mangleL s)) := by
  have hq2 : ∀ a ∈ mangleL s, a ≠ '"' :=
    mangleL_preserves_ne '"' (by decide) (by decide) (by decide) (by decide) (by decide) s hq
  have hb2 : ∀ a ∈ mangleL s, a ≠ '\\' :=
    mangleL_preserves_ne '\\' (by decide) (by decide) (by decide) (by decide) (by decide) s hb
  have hn2 : ∀ a ∈ mangleL s, a ≠ '\n' :=
    mangleL_preserves_ne '\n' (by decide) (by decide) (by decide) (by decide) (by decide) s hn
  have hr2 : ∀ a ∈ mangleL s, a ≠ '\r' :=
    mangleL_preserves_ne '\r' (by decide) (by decide) (by decide) (by decide) (by decide) s hr
  have htok : tokenize ('"' :: mangleL s ++ ['"']) = Except.ok [Tok.str (mangleL s)] := by
    rw [tokenize]
    rw [show ('"' :: mangleL s ++ ['"'] : List Char) = '"' :: mangleL s ++ '"' :: [] from rfl]
    rw [tokenize_quoted (mangleL s) [] hq2 hb2 hn2 hr2]
    rfl
  have hast : astParse ('"' :: mangleL s ++ ['"']) =
      Except.ok (some (PyAst.pyStr (mangleL s))) := by
    unfold astParse
    rw [htok]
    rfl
  unfold buildSqL
  rw [mangle_quoted s, hast]
  show Except.bind (buildLoop f (visitTop (some (PyAst.pyStr (mangleL s)))) [])
    (fun nl => buildFinal oper nl) = _
  by_cases hbr : bracketShapedL (mangleL s) = true
  · rw [show visitTop (some (PyAst.pyStr (mangleL s))) =
      [if bracketShapedL (mangleL s) then mangleL s else '"' :: mangleL s ++ ['"']] from rfl]
    rw [if_pos hbr, if_pos hbr]
    have hh : (mangleL s).head? = some '[' := by
      simp only [bracketShapedL, Bool.and_eq_true, decide_eq_true_eq] at hbr
      exact hbr.1
    have h1 : mangleL s ≠ ['O', 'r'] := by
      intro hcon; rw [hcon] at hh; exact absurd hh (by decide)
    have h2 : mangleL s ≠ ['A', 'n', 'd'] := by
      intro hcon; rw [hcon] at hh; exact absurd hh (by decide)
    have h3 : (mangleL s).head? ≠ some '"' := by rw [hh]; decide
    rw [buildLoop_plain f (mangleL s) [] [] h1 h2 h3]
    rfl
  · rw [show visitTop (some (PyAst.pyStr (mangleL s))) =
      [if bracketShapedL (mangleL s) then mangleL s else '"' :: mangleL s ++ ['"']] from rfl]
    rw [if_neg hbr, if_neg hbr]
    rw [buildLoop_quoted f (mangleL s) [] [] hq2]
    rfl

/-! ## Claim theorems -/

/-- Claim C2 (evaluation at the failing input): the code does NOT compile a
same-operator chain into a left-leaning chain of that operator.  Python's
parser flattens `A AND B AND C` into one n-ary `BoolOp`, the visitor emits
a single `"And"` instruction, the loop combines only the last two
operands, and the leftover operands are joined by `build_sq`'s default
`oper=operator.or_`: the result is `OR(A, AND(B, C))`, which is not even
semantically equivalent to the claimed `AND(AND(A, B), C)`.  An `OR`
chain keeps its operator only because the default `oper` happens to be
OR, and its shape is right-leaning, not left-leaning. -/
theorem claim2_same_op_chain_code_bug :
    build_sq "A AND B AND C" "f" =
      Except.ok (SQ.or (SQ.leaf ['f'] ['A'])
        (SQ.and (SQ.leaf ['f'] ['B']) (SQ.leaf ['f'] ['C']))) ∧
    build_sq "A OR B OR C" "f" =
      Except.ok (SQ.or (SQ.leaf ['f'] ['A'])
        (SQ.or (SQ.leaf ['f'] ['B']) (SQ.leaf ['f'] ['C']))) ∧
    ¬ SemEquivSQ
      (SQ.or (SQ.leaf ['f'] ['A']) (SQ.and (SQ.leaf ['f'] ['B']) (SQ.leaf ['f'] ['C'])))
      (SQ.and (SQ.and (SQ.leaf ['f'] ['A']) (SQ.leaf ['f'] ['B'])) (SQ.leaf ['f'] ['C'])) := by
  refine ⟨rfl, rfl, ?_⟩
  intro h
  exact absurd (h (fun _ t => decide (t = ['A']))) (by decide)

/-- Claim C3 (evaluation at the failing inputs): negation is NOT applied
via the backend's NOT combinator.  The keyword lowering of line 144
rewrites only `OR` and `AND`, so uppercase `NOT A AND B` is two adjacent
names for `ast.parse` and raises a SyntaxError; lowercase `not a and b`
parses into a `UnaryOp`, but `ClauseVisitor` has no `visit_UnaryOp`, so
the negation is silently dropped and the clause compiles to
`AND(a, b)`. -/
theorem claim3_not_dropped_code_bug :
    build_sq "not a and b" "f" =
      Except.ok (SQ.and (SQ.leaf ['f'] ['a']) (SQ.leaf ['f'] ['b'])) ∧
    build_sq "NOT A AND B" "f" = Except.error (PyErr.synErr "invalid syntax") :=
  ⟨rfl, rfl⟩

/-- Claim C8 (evaluation at the failing input): compiling the empty
querystring does NOT return the "no query" `None` result.  The
`if top_sq:` test at line 102 checks the generator object returned by
`field_pairs` — a generator is always truthy — so the `return None`
branch is dead and `reduce` raises `TypeError` on the empty sequence. -/
theorem claim8_empty_input_code_bug :
    parse "" =
      Except.error (PyErr.typeError "reduce() of empty sequence with no initial value") :=
  rfl

/-- Claim C4 (counterexample): a bracketed range literal is kept verbatim
including the brackets, but its leaf query uses the BASE field, not the
`__exact` field the claim requires: `visit_Str` strips the quotes from a
bracket-shaped string precisely to remove the `__exact` signal (comment
at lines 53-58 of the source). -/
theorem claim4_range_counterexample :
    build_sq "\"[100 TO 999]\"" "price" =
      Except.ok (SQ.leaf "price".toList "[100 TO 999]".toList) ∧
    SQ.leaf "price".toList "[100 TO 999]".toList ≠
      SQ.leaf "price__exact".toList "[100 TO 999]".toList := by
  refine ⟨rfl, ?_⟩
  decide

/-- Claim C4 (amended): for every bracket-shaped literal body (written,
as the source requires, inside double quotes; the body free of quotes,
backslashes and line ends, so that CPython's escape decoding and
EOL errors do not rewrite or reject it, and free of uppercase `OR`/`AND`
substrings, so that line 144's lowering does not rewrite it), the leaf
keeps the text verbatim including the brackets and is emitted on the
BASE field — the contains/default field — not on the `__exact` field. -/
theorem claim4_range_amended (s f : List Char) (hbr : bracketShapedL s = true)
    (hq : ∀ a ∈ s, a ≠ '"') (hb : ∀ a ∈ s, a ≠ '\\')
    (hn : ∀ a ∈ s, a ≠ '\n') (hr : ∀ a ∈ s, a ≠ '\r')
    (hor : containsOR s = false) (hand : containsAND s = false) :
    buildSqL ('"' :: s ++ ['"']) f SQ.or = Except.ok (SQ.leaf f s) := by
  rw [buildSq_quoted_gen s f SQ.or hq hb hn hr]
  rw [mangleL_eq_self s hor hand]
  rw [if_pos hbr]

/-- Witness for the amended claim C4 at the spec's own example
`[100 TO 999]` on field `price`. -/
theorem claim4_range_amended_witness :
    buildSqL ('"' :: "[100 TO 999]".toList ++ ['"']) "price".toList SQ.or =
      Except.ok (SQ.leaf "price".toList "[100 TO 999]".toList) :=
  claim4_range_amended "[100 TO 999]".toList "price".toList (by decide) (by decide)
    (by decide) (by decide) (by decide) (by decide) (by decide)

/-- Claim C9 (counterexample): compiling a clause with an unmatched
parenthesis under `micromanage=True` raises the bare Python SyntaxError
propagated from `ast.parse`.  The raised value is byte-for-byte the same
whichever field the clause belongs to — compiling the identical clause
for fields `state` and `title` yields identical errors — so it cannot
carry the offending field name, and there is no structured
`UnbalancedParens` kind. -/
theorem claim9_unbalanced_counterexample :
    build_sq "(Kentucky OR Virginia" "state" =
      Except.error (PyErr.synErr "unexpected EOF while parsing") ∧
    build_sq "(Kentucky OR Virginia" "title" =
      Except.error (PyErr.synErr "unexpected EOF while parsing") :=
  ⟨rfl, rfl⟩

/-- Claim C9 (amended): with `micromanage=True` an unmatched parenthesis
makes the whole compilation fail with Python's uncaught SyntaxError
(`unexpected EOF while parsing`), identical for every field name, and no
partial or best-guess query is produced on that path; with the default
`micromanage=False` the clause is never parsed at all and is passed
through verbatim as a leaf term. -/
theorem claim9_unbalanced_amended :
    (∀ f : List Char, buildSqL "(Kentucky OR Virginia".toList f SQ.or =
      Except.error (PyErr.synErr "unexpected EOF while parsing")) ∧
    parse "state:(Kentucky OR Virginia" true =
      Except.error (PyErr.synErr "unexpected EOF while parsing") ∧
    parse "state:(Kentucky OR Virginia" =
      Except.ok (some (SQ.leaf "state".toList "(Kentucky OR Virginia".toList)) :=
  ⟨fun _ => rfl, rfl, rfl⟩

/-- Claim C10 (counterexample): `AND`, `OR`, `NOT` are not purely
whole-word structural tokens.  The keyword lowering of line 144 is a raw
substring replace, so the literal `OREGON` reaches the leaf as `orEGON`:
it is still captured as a single token, but its text does not reach the
leaf unchanged. -/
theorem claim10_substring_counterexample :
    build_sq "OREGON" "f" = Except.ok (SQ.leaf ['f'] "orEGON".toList) ∧
    ¬ build_sq "OREGON" "f" = Except.ok (SQ.leaf ['f'] "OREGON".toList) := by
  refine ⟨rfl, ?_⟩
  intro h
  rw [show build_sq "OREGON" "f" = Except.ok (SQ.leaf ['f'] "orEGON".toList) from rfl] at h
  exact absurd h (by decide)

/-- Claim C10 (amended): a plain literal is captured as one token and
compiled to one leaf, but the text that reaches the leaf is the literal
with every `OR` and `AND` substring lowercased (the identity exactly when
the literal contains neither substring). -/
theorem claim10_substring_amended (w f : List Char) (hw : PlainLit w) :
    buildSqL w f SQ.or = Except.ok (SQ.leaf f (mangleL w)) :=
  buildSq_word w f SQ.or hw

/-- Witness for the amended claim C10 at the literal `OREGON`: the leaf
term is the mangled `orEGON`. -/
theorem claim10_substring_amended_witness :
    buildSqL "OREGON".toList ['f'] SQ.or =
      Except.ok (SQ.leaf ['f'] "orEGON".toList) :=
  claim10_substring_amended "OREGON".toList ['f'] (by decide)

/-- Claim C5 (counterexample): quoting does NOT toggle exact mode for
every literal, and unquoted text does not always reach the leaf
unchanged.  The quoted bracket-shaped literal `"[0 TO 9]"` compiles to a
leaf on the BASE field `price`, not on `price__exact` (`visit_Str`
deliberately removes the exact signal for ranges), and the unquoted
literal `TANDEM` reaches its leaf as `TandEM` — line 144's substring
replace lowercases the embedded `AND` — so its text is not unchanged. -/
theorem claim5_quote_toggles_counterexample :
    build_sq "\"[0 TO 9]\"" "price" =
      Except.ok (SQ.leaf "price".toList "[0 TO 9]".toList) ∧
    SQ.leaf "price".toList "[0 TO 9]".toList ≠
      SQ.leaf "price__exact".toList "[0 TO 9]".toList ∧
    build_sq "TANDEM" "state" =
      Except.ok (SQ.leaf "state".toList "TandEM".toList) ∧
    SQ.leaf "state".toList "TandEM".toList ≠
      SQ.leaf "state".toList "TANDEM".toList := by
  refine ⟨rfl, by decide, rfl, by decide⟩

/-- Claim C5 (amended): quoting toggles exact mode except for
bracket-shaped (range) literals, and literal text survives up to the
keyword lowering.  For every quoted literal whose body is free of
quotes, backslashes and line ends (CPython decodes escapes and raises
EOL errors otherwise), the compiled leaf carries the body with its
uppercase `OR`/`AND` substrings lowercased and the quotes stripped, on
the `__exact` field — unless the lowered body is bracket shaped, in
which case it is a range and stays on the base field; every unquoted
plain literal compiles to a contains-mode leaf on the base field whose
term is the literal with those substrings lowercased (its text exactly
when it contains neither).  The last two conjuncts evaluate the spec's
own examples `"North Carolina"` and `Kentucky`, which are untouched by
both carve-outs. -/
theorem claim5_quote_toggles_amended :
    (∀ s f : List Char, (∀ a ∈ s, a ≠ '"') → (∀ a ∈ s, a ≠ '\\') →
      (∀ a ∈ s, a ≠ '\n') → (∀ a ∈ s, a ≠ '\r') →
      buildSqL ('"' :: s ++ ['"']) f SQ.or =
        Except.ok (if bracketShapedL (mangleL s) then SQ.leaf f (mangleL s)
          else SQ.leaf (f ++ exactSuffix) (mangleL s))) ∧
    (∀ w f : List Char, PlainLit w →
      buildSqL w f SQ.or = Except.ok (SQ.leaf f (mangleL w))) ∧
    build_sq "\"North Carolina\"" "state" =
      Except.ok (SQ.leaf "state__exact".toList "North Carolina".toList) ∧
    build_sq "Kentucky" "state" =
      Except.ok (SQ.leaf "state".toList "Kentucky".toList) := by
  refine ⟨?_, ?_, rfl, rfl⟩
  · intro s f hq hb hn hr
    exact buildSq_quoted_gen s f SQ.or hq hb hn hr
  · intro w f hw
    exact buildSq_word w f SQ.or hw

/-- Witness for the amended claim C5 at the spec's examples: quoted
`"North Carolina"` on field `state` gives the exact-match leaf with the
body intact, unquoted `Kentucky` gives the contains leaf. -/
theorem claim5_quote_toggles_amended_witness :
    buildSqL ('"' :: "North Carolina".toList ++ ['"']) "state".toList SQ.or =
      Except.ok (SQ.leaf ("state".toList ++ exactSuffix) "North Carolina".toList) ∧
    buildSqL "Kentucky".toList "state".toList SQ.or =
      Except.ok (SQ.leaf "state".toList "Kentucky".toList) := by
  constructor
  · have h := claim5_quote_toggles_amended.1 "North Carolina".toList "state".toList
      (by decide) (by decide) (by decide) (by decide)
    exact h
  · exact claim5_quote_toggles_amended.2.1 "Kentucky".toList "state".toList (by decide)

/-- The default (non-micromanage) path turns every pair into a verbatim
leaf and never errors. -/
lemma fieldPairsE_false (pairs : List (List Char × List Char)) :
    fieldPairsE pairs false =
      Except.ok (pairs.map (fun p => SQ.leaf p.1 p.2)) := by
  induction pairs with
  | nil => rfl
  | cons p rest ih =>
    simp only [fieldPairsE, ih]
    rfl

/-- Claim C6: with the default configuration (`micromanage=False`), every
field-term pair produced by the splitter becomes one leaf whose term is
the entire raw clause text verbatim — parentheses, quotes and boolean
keywords included, uninterpreted — and per-field boolean compilation
happens only under the explicit `micromanage=True` flag.  The two
concrete conjuncts compile the same querystring both ways: the default
leaves `("Best Buy" OR Target) ` uninterpreted, while `micromanage=True`
compiles it into an OR of an exact-match leaf and a contains leaf. -/
theorem claim6_default_verbatim :
    (∀ qs : List Char, fieldPairsE (splitPairs qs) false =
      Except.ok ((splitPairs qs).map (fun p => SQ.leaf p.1 p.2))) ∧
    parse "title:(\"Best Buy\" OR Target) state:Virginia" =
      Except.ok (some (SQ.and
        (SQ.leaf "title".toList "(\"Best Buy\" OR Target) ".toList)
        (SQ.leaf "state".toList "Virginia".toList))) ∧
    parse "title:(\"Best Buy\" OR Target) state:Virginia" true =
      Except.ok (some (SQ.and
        (SQ.or (SQ.leaf "title__exact".toList "Best Buy".toList)
          (SQ.leaf "title".toList "Target".toList))
        (SQ.leaf "state".toList "Virginia".toList))) :=
  ⟨fun qs => fieldPairsE_false (splitPairs qs), rfl, rfl⟩

/-- Claim C7: whatever per-field query objects the pairs produce, the top
level combines them pairwise left to right with the default `AND`
operator (`reduce(operator.and_, ...)` is a left fold), and with exactly
one pair the fold returns that single query object unchanged. -/
theorem claim7_top_level_and_fold (qs : List Char) (mm : Bool) (x : SQ) (xs : List SQ)
    (h : fieldPairsE (splitPairs qs) mm = Except.ok (x :: xs)) :
    parseL qs mm DefOp.AND = Except.ok (some (xs.foldl SQ.and x)) := by
  unfold parseL
  rw [h]
  rfl

/-- Witness for claim C7 at the spec's example
`state:Kentucky title:Target` (two pairs, so one AND node; the `state`
term keeps the trailing space the splitter leaves on it). -/
theorem claim7_top_level_and_fold_witness :
    parseL "state:Kentucky title:Target".toList false DefOp.AND =
      Except.ok (some (SQ.and (SQ.leaf "state".toList "Kentucky ".toList)
        (SQ.leaf "title".toList "Target".toList))) :=
  claim7_top_level_and_fold "state:Kentucky title:Target".toList false
    (SQ.leaf "state".toList "Kentucky ".toList)
    [SQ.leaf "title".toList "Target".toList] (by rfl)

/-- Facts every plain literal gives about its keyword-lowered form. -/
lemma plainLit_facts (w : List Char) (hw : PlainLit w) :
    mangleL w ≠ [] ∧ (∀ a ∈ mangleL w, isWordCharL a = true) ∧
      (mangleL w).head? ≠ some '"' := by
  obtain ⟨hne, hall, -, -, -⟩ := hw
  have hne2 := mangleL_ne_nil w hne
  have hall2 := mangleL_wordChar w hall
  refine ⟨hne2, hall2, ?_⟩
  obtain ⟨c, w2, heq⟩ := List.exists_cons_of_ne_nil hne2
  have hc : isWordCharL c = true := hall2 c (by rw [heq]; exact List.mem_cons_self c w2)
  rw [heq]
  intro hcon
  simp only [List.head?_cons, Option.some.injEq] at hcon
  rw [hcon] at hc
  exact absurd hc (by decide)

/-- Claim C1: for all plain operand literals `A`, `B`, `C` (whose lowered
forms are distinct where it matters), compiling `A AND B OR C` yields the
same query as compiling `(A AND B) OR C` — namely
`OR(AND(A, B), C)` on the lowered literals — and compiling
`A AND (B OR C)` yields `AND(A, OR(B, C))`, which is not semantically
equivalent to the former: AND binds tighter than OR when the operators
are adjacent without parentheses. -/
theorem claim1_and_binds_tighter (A B C f : List Char)
    (hA : PlainLit A) (hB : PlainLit B) (hC : PlainLit C)
    (hAC : mangleL A ≠ mangleL C) :
    buildSqL (A ++ " AND ".toList ++ B ++ " OR ".toList ++ C) f SQ.or =
      Except.ok (SQ.or (SQ.and (SQ.leaf f (mangleL A)) (SQ.leaf f (mangleL B)))
        (SQ.leaf f (mangleL C))) ∧
    buildSqL ("(".toList ++ A ++ " AND ".toList ++ B ++ ") OR ".toList ++ C) f SQ.or =
      Except.ok (SQ.or (SQ.and (SQ.leaf f (mangleL A)) (SQ.leaf f (mangleL B)))
        (SQ.leaf f (mangleL C))) ∧
    buildSqL (A ++ " AND (".toList ++ B ++ " OR ".toList ++ C ++ ")".toList) f SQ.or =
      Except.ok (SQ.and (SQ.leaf f (mangleL A))
        (SQ.or (SQ.leaf f (mangleL B)) (SQ.leaf f (mangleL C)))) ∧
    ¬ SemEquivSQ
      (SQ.or (SQ.and (SQ.leaf f (mangleL A)) (SQ.leaf f (mangleL B)))
        (SQ.leaf f (mangleL C)))
      (SQ.and (SQ.leaf f (mangleL A))
        (SQ.or (SQ.leaf f (mangleL B)) (SQ.leaf f (mangleL C)))) := by
  obtain ⟨hAne2, hAall2, hAhead⟩ := plainLit_facts A hA
  obtain ⟨hBne2, hBall2, hBhead⟩ := plainLit_facts B hB
  obtain ⟨hCne2, hCall2, hChead⟩ := plainLit_facts C hC
  obtain ⟨-, -, hAcl, hAOr, hAAnd⟩ := hA
  obtain ⟨-, -, hBcl, hBOr, hBAnd⟩ := hB
  obtain ⟨-, -, hCcl, hCOr, hCAnd⟩ := hC
  have hm1 : mangleL (A ++ ' ' :: 'A' :: 'N' :: 'D' :: ' ' :: (B ++ ' ' :: 'O' :: 'R' :: ' ' :: C)) =
      mangleL A ++ ' ' :: 'a' :: 'n' :: 'd' :: ' ' ::
        (mangleL B ++ ' ' :: 'o' :: 'r' :: ' ' :: mangleL C) := by
    rw [mangleL]
    rw [replOR_append_sep ' ' (by decide) A
      ('A' :: 'N' :: 'D' :: ' ' :: (B ++ ' ' :: 'O' :: 'R' :: ' ' :: C))]
    rw [show replOR (' ' :: 'A' :: 'N' :: 'D' :: ' ' :: (B ++ ' ' :: 'O' :: 'R' :: ' ' :: C)) =
      ' ' :: 'A' :: 'N' :: 'D' :: ' ' :: replOR (B ++ ' ' :: 'O' :: 'R' :: ' ' :: C) from rfl]
    rw [replOR_append_sep ' ' (by decide) B ('O' :: 'R' :: ' ' :: C)]
    rw [show replOR (' ' :: 'O' :: 'R' :: ' ' :: C) = ' ' :: 'o' :: 'r' :: ' ' :: replOR C from rfl]
    rw [replAND_append_sep ' ' (by decide) (by decide) (replOR A)
      ('A' :: 'N' :: 'D' :: ' ' :: (replOR B ++ ' ' :: 'o' :: 'r' :: ' ' :: replOR C))]
    rw [show replAND (' ' :: 'A' :: 'N' :: 'D' :: ' ' ::
        (replOR B ++ ' ' :: 'o' :: 'r' :: ' ' :: replOR C)) =
      ' ' :: 'a' :: 'n' :: 'd' :: ' ' ::
        replAND (replOR B ++ ' ' :: 'o' :: 'r' :: ' ' :: replOR C) from rfl]
    rw [replAND_append_sep ' ' (by decide) (by decide) (replOR B) ('o' :: 'r' :: ' ' :: replOR C)]
    rfl
  have ht1 : tokenize (mangleL A ++ ' ' :: 'a' :: 'n' :: 'd' :: ' ' ::
      (mangleL B ++ ' ' :: 'o' :: 'r' :: ' ' :: mangleL C)) =
      Except.ok [Tok.ident (mangleL A), Tok.kwAnd, Tok.ident (mangleL B),
        Tok.kwOr, Tok.ident (mangleL C)] := by
    rw [tokenize]
    rw [tokenize_word_space (mangleL A)
      ('a' :: 'n' :: 'd' :: ' ' :: (mangleL B ++ ' ' :: 'o' :: 'r' :: ' ' :: mangleL C))
      hAne2 hAall2]
    rw [hAcl]
    rw [show ('a' :: 'n' :: 'd' :: ' ' ::
        (mangleL B ++ ' ' :: 'o' :: 'r' :: ' ' :: mangleL C) : List Char) =
      ['a', 'n', 'd'] ++ ' ' :: (mangleL B ++ ' ' :: 'o' :: 'r' :: ' ' :: mangleL C) from rfl]
    rw [tokenize_word_space ['a', 'n', 'd']
      (mangleL B ++ ' ' :: 'o' :: 'r' :: ' ' :: mangleL C) (by decide) (by decide)]
    rw [show classifyWord ['a', 'n', 'd'] = Except.ok Tok.kwAnd from rfl]
    rw [tokenize_word_space (mangleL B) ('o' :: 'r' :: ' ' :: mangleL C) hBne2 hBall2]
    rw [hBcl]
    rw [show ('o' :: 'r' :: ' ' :: mangleL C : List Char) =
      ['o', 'r'] ++ ' ' :: mangleL C from rfl]
    rw [tokenize_word_space ['o', 'r'] (mangleL C) (by decide) (by decide)]
    rw [show classifyWord ['o', 'r'] = Except.ok Tok.kwOr from rfl]
    rw [tokenize_word_eof (mangleL C) hCne2 hCall2]
    rw [hCcl]
    rfl
  have hp1 : astParse (mangleL A ++ ' ' :: 'a' :: 'n' :: 'd' :: ' ' ::
      (mangleL B ++ ' ' :: 'o' :: 'r' :: ' ' :: mangleL C)) =
      Except.ok (some (PyAst.pyBool true (toAstL
        [PyAst.pyBool false (toAstL [PyAst.pyName (mangleL A), PyAst.pyName (mangleL B)]),
         PyAst.pyName (mangleL C)]))) := by
    unfold astParse
    rw [ht1]
    rfl
  have hm2 : mangleL ('(' :: (A ++ ' ' :: 'A' :: 'N' :: 'D' :: ' ' ::
      (B ++ ')' :: ' ' :: 'O' :: 'R' :: ' ' :: C))) =
      '(' :: (mangleL A ++ ' ' :: 'a' :: 'n' :: 'd' :: ' ' ::
        (mangleL B ++ ')' :: ' ' :: 'o' :: 'r' :: ' ' :: mangleL C)) := by
    rw [mangleL]
    rw [show replOR ('(' :: (A ++ ' ' :: 'A' :: 'N' :: 'D' :: ' ' ::
        (B ++ ')' :: ' ' :: 'O' :: 'R' :: ' ' :: C))) =
      '(' :: replOR (A ++ ' ' :: 'A' :: 'N' :: 'D' :: ' ' ::
        (B ++ ')' :: ' ' :: 'O' :: 'R' :: ' ' :: C)) from rfl]
    rw [replOR_append_sep ' ' (by decide) A
      ('A' :: 'N' :: 'D' :: ' ' :: (B ++ ')' :: ' ' :: 'O' :: 'R' :: ' ' :: C))]
    rw [show replOR (' ' :: 'A' :: 'N' :: 'D' :: ' ' ::
        (B ++ ')' :: ' ' :: 'O' :: 'R' :: ' ' :: C)) =
      ' ' :: 'A' :: 'N' :: 'D' :: ' ' ::
        replOR (B ++ ')' :: ' ' :: 'O' :: 'R' :: ' ' :: C) from rfl]
    rw [replOR_append_sep ')' (by decide) B (' ' :: 'O' :: 'R' :: ' ' :: C)]
    rw [show replOR (')' :: ' ' :: 'O' :: 'R' :: ' ' :: C) =
      ')' :: ' ' :: 'o' :: 'r' :: ' ' :: replOR C from rfl]
    rw [show replAND ('(' :: (replOR A ++ ' ' :: 'A' :: 'N' :: 'D' :: ' ' ::
        (replOR B ++ ')' :: ' ' :: 'o' :: 'r' :: ' ' :: replOR C))) =
      '(' :: replAND (replOR A ++ ' ' :: 'A' :: 'N' :: 'D' :: ' ' ::
        (replOR B ++ ')' :: ' ' :: 'o' :: 'r' :: ' ' :: replOR C)) from rfl]
    rw [replAND_append_sep ' ' (by decide) (by decide) (replOR A)
      ('A' :: 'N' :: 'D' :: ' ' :: (replOR B ++ ')' :: ' ' :: 'o' :: 'r' :: ' ' :: replOR C))]
    rw [show replAND (' ' :: 'A' :: 'N' :: 'D' :: ' ' ::
        (replOR B ++ ')' :: ' ' :: 'o' :: 'r' :: ' ' :: replOR C)) =
      ' ' :: 'a' :: 'n' :: 'd' :: ' ' ::
        replAND (replOR B ++ ')' :: ' ' :: 'o' :: 'r' :: ' ' :: replOR C) from rfl]
    rw [replAND_append_sep ')' (by decide) (by decide) (replOR B)
      (' ' :: 'o' :: 'r' :: ' ' :: replOR C)]
    rfl
  have ht2 : tokenize ('(' :: (mangleL A ++ ' ' :: 'a' :: 'n' :: 'd' :: ' ' ::
      (mangleL B ++ ')' :: ' ' :: 'o' :: 'r' :: ' ' :: mangleL C))) =
      Except.ok [Tok.lpar, Tok.ident (mangleL A), Tok.kwAnd, Tok.ident (mangleL B),
        Tok.rpar, Tok.kwOr, Tok.ident (mangleL C)] := by
    rw [tokenize]
    rw [show tokM TokMode.norm ('(' :: (mangleL A ++ ' ' :: 'a' :: 'n' :: 'd' :: ' ' ::
        (mangleL B ++ ')' :: ' ' :: 'o' :: 'r' :: ' ' :: mangleL C))) = (do
      let ts ← tokM TokMode.norm (mangleL A ++ ' ' :: 'a' :: 'n' :: 'd' :: ' ' ::
        (mangleL B ++ ')' :: ' ' :: 'o' :: 'r' :: ' ' :: mangleL C))
      Except.ok (Tok.lpar :: ts)) from rfl]
    rw [tokenize_word_space (mangleL A) ('a' :: 'n' :: 'd' :: ' ' ::
      (mangleL B ++ ')' :: ' ' :: 'o' :: 'r' :: ' ' :: mangleL C)) hAne2 hAall2]
    rw [hAcl]
    rw [show ('a' :: 'n' :: 'd' :: ' ' ::
        (mangleL B ++ ')' :: ' ' :: 'o' :: 'r' :: ' ' :: mangleL C) : List Char) =
      ['a', 'n', 'd'] ++ ' ' ::
        (mangleL B ++ ')' :: ' ' :: 'o' :: 'r' :: ' ' :: mangleL C) from rfl]
    rw [tokenize_word_space ['a', 'n', 'd']
      (mangleL B ++ ')' :: ' ' :: 'o' :: 'r' :: ' ' :: mangleL C) (by decide) (by decide)]
    rw [show classifyWord ['a', 'n', 'd'] = Except.ok Tok.kwAnd from rfl]
    rw [tokenize_word_rpar (mangleL B) (' ' :: 'o' :: 'r' :: ' ' :: mangleL C) hBne2 hBall2]
    rw [hBcl]
    rw [show tokM TokMode.norm (' ' :: 'o' :: 'r' :: ' ' :: mangleL C) =
      tokM TokMode.norm ('o' :: 'r' :: ' ' :: mangleL C) from rfl]
    rw [show ('o' :: 'r' :: ' ' :: mangleL C : List Char) =
      ['o', 'r'] ++ ' ' :: mangleL C from rfl]
    rw [tokenize_word_space ['o', 'r'] (mangleL C) (by decide) (by decide)]
    rw [show classifyWord ['o', 'r'] = Except.ok Tok.kwOr from rfl]
    rw [tokenize_word_eof (mangleL C) hCne2 hCall2]
    rw [hCcl]
    rfl
  have hp2 : astParse ('(' :: (mangleL A ++ ' ' :: 'a' :: 'n' :: 'd' :: ' ' ::
      (mangleL B ++ ')' :: ' ' :: 'o' :: 'r' :: ' ' :: mangleL C))) =
      Except.ok (some (PyAst.pyBool true (toAstL
        [PyAst.pyBool false (toAstL [PyAst.pyName (mangleL A), PyAst.pyName (mangleL B)]),
         PyAst.pyName (mangleL C)]))) := by
    unfold astParse
    rw [ht2]
    rfl
  have hm3 : mangleL (A ++ ' ' :: 'A' :: 'N' :: 'D' :: ' ' :: '(' ::
      (B ++ ' ' :: 'O' :: 'R' :: ' ' :: (C ++ [')']))) =
      mangleL A ++ ' ' :: 'a' :: 'n' :: 'd' :: ' ' :: '(' ::
        (mangleL B ++ ' ' :: 'o' :: 'r' :: ' ' :: (mangleL C ++ [')'])) := by
    rw [mangleL]
    rw [replOR_append_sep ' ' (by decide) A
      ('A' :: 'N' :: 'D' :: ' ' :: '(' :: (B ++ ' ' :: 'O' :: 'R' :: ' ' :: (C ++ [')'])))]
    rw [show replOR (' ' :: 'A' :: 'N' :: 'D' :: ' ' :: '(' ::
        (B ++ ' ' :: 'O' :: 'R' :: ' ' :: (C ++ [')']))) =
      ' ' :: 'A' :: 'N' :: 'D' :: ' ' :: '(' ::
        replOR (B ++ ' ' :: 'O' :: 'R' :: ' ' :: (C ++ [')'])) from rfl]
    rw [replOR_append_sep ' ' (by decide) B ('O' :: 'R' :: ' ' :: (C ++ [')']))]
    rw [show replOR (' ' :: 'O' :: 'R' :: ' ' :: (C ++ [')'])) =
      ' ' :: 'o' :: 'r' :: ' ' :: replOR (C ++ [')']) from rfl]
    rw [show (C ++ [')'] : List Char) = C ++ ')' :: [] from rfl]
    rw [replOR_append_sep ')' (by decide) C []]
    rw [show replOR (')' :: []) = [')'] from rfl]
    rw [replAND_append_sep ' ' (by decide) (by decide) (replOR A)
      ('A' :: 'N' :: 'D' :: ' ' :: '(' ::
        (replOR B ++ ' ' :: 'o' :: 'r' :: ' ' :: (replOR C ++ [')'])))]
    rw [show replAND (' ' :: 'A' :: 'N' :: 'D' :: ' ' :: '(' ::
        (replOR B ++ ' ' :: 'o' :: 'r' :: ' ' :: (replOR C ++ [')']))) =
      ' ' :: 'a' :: 'n' :: 'd' :: ' ' :: '(' ::
        replAND (replOR B ++ ' ' :: 'o' :: 'r' :: ' ' :: (replOR C ++ [')'])) from rfl]
    rw [replAND_append_sep ' ' (by decide) (by decide) (replOR B)
      ('o' :: 'r' :: ' ' :: (replOR C ++ [')']))]
    rw [show replAND (' ' :: 'o' :: 'r' :: ' ' :: (replOR C ++ [')'])) =
      ' ' :: 'o' :: 'r' :: ' ' :: replAND (replOR C ++ [')']) from rfl]
    rw [show (replOR C ++ [')'] : List Char) = replOR C ++ ')' :: [] from rfl]
    rw [replAND_append_sep ')' (by decide) (by decide) (replOR C) []]
    rfl
  have ht3 : tokenize (mangleL A ++ ' ' :: 'a' :: 'n' :: 'd' :: ' ' :: '(' ::
      (mangleL B ++ ' ' :: 'o' :: 'r' :: ' ' :: (mangleL C ++ [')']))) =
      Except.ok [Tok.ident (mangleL A), Tok.kwAnd, Tok.lpar, Tok.ident (mangleL B),
        Tok.kwOr, Tok.ident (mangleL C), Tok.rpar] := by
    rw [tokenize]
    rw [tokenize_word_space (mangleL A) ('a' :: 'n' :: 'd' :: ' ' :: '(' ::
      (mangleL B ++ ' ' :: 'o' :: 'r' :: ' ' :: (mangleL C ++ [')']))) hAne2 hAall2]
    rw [hAcl]
    rw [show ('a' :: 'n' :: 'd' :: ' ' :: '(' ::
        (mangleL B ++ ' ' :: 'o' :: 'r' :: ' ' :: (mangleL C ++ [')'])) : List Char) =
      ['a', 'n', 'd'] ++ ' ' :: '(' ::
        (mangleL B ++ ' ' :: 'o' :: 'r' :: ' ' :: (mangleL C ++ [')'])) from rfl]
    rw [tokenize_word_space ['a', 'n', 'd'] ('(' ::
      (mangleL B ++ ' ' :: 'o' :: 'r' :: ' ' :: (mangleL C ++ [')']))) (by decide) (by decide)]
    rw [show classifyWord ['a', 'n', 'd'] = Except.ok Tok.kwAnd from rfl]
    rw [show tokM TokMode.norm ('(' ::
        (mangleL B ++ ' ' :: 'o' :: 'r' :: ' ' :: (mangleL C ++ [')']))) = (do
      let ts ← tokM TokMode.norm
        (mangleL B ++ ' ' :: 'o' :: 'r' :: ' ' :: (mangleL C ++ [')']))
      Except.ok (Tok.lpar :: ts)) from rfl]
    rw [tokenize_word_space (mangleL B)
      ('o' :: 'r' :: ' ' :: (mangleL C ++ [')'])) hBne2 hBall2]
    rw [hBcl]
    rw [show ('o' :: 'r' :: ' ' :: (mangleL C ++ [')']) : List Char) =
      ['o', 'r'] ++ ' ' :: (mangleL C ++ [')']) from rfl]
    rw [tokenize_word_space ['o', 'r'] (mangleL C ++ [')']) (by decide) (by decide)]
    rw [show classifyWord ['o', 'r'] = Except.ok Tok.kwOr from rfl]
    rw [show (mangleL C ++ [')'] : List Char) = mangleL C ++ ')' :: [] from rfl]
    rw [tokenize_word_rpar (mangleL C) [] hCne2 hCall2]
    rw [hCcl]
    rfl
  have hp3 : astParse (mangleL A ++ ' ' :: 'a' :: 'n' :: 'd' :: ' ' :: '(' ::
      (mangleL B ++ ' ' :: 'o' :: 'r' :: ' ' :: (mangleL C ++ [')']))) =
      Except.ok (some (PyAst.pyBool false (toAstL
        [PyAst.pyName (mangleL A),
         PyAst.pyBool true (toAstL [PyAst.pyName (mangleL B), PyAst.pyName (mangleL C)])]))) := by
    unfold astParse
    rw [ht3]
    rfl
  have e1 : (A ++ " AND ".toList ++ B ++ " OR ".toList ++ C : List Char) =
      A ++ ' ' :: 'A' :: 'N' :: 'D' :: ' ' :: (B ++ ' ' :: 'O' :: 'R' :: ' ' :: C) := by
    rw [show (" AND ".toList : List Char) = [' ', 'A', 'N', 'D', ' '] from rfl]
    rw [show (" OR ".toList : List Char) = [' ', 'O', 'R', ' '] from rfl]
    simp
  have e2 : ("(".toList ++ A ++ " AND ".toList ++ B ++ ") OR ".toList ++ C : List Char) =
      '(' :: (A ++ ' ' :: 'A' :: 'N' :: 'D' :: ' ' ::
        (B ++ ')' :: ' ' :: 'O' :: 'R' :: ' ' :: C)) := by
    rw [show ("(".toList : List Char) = ['('] from rfl]
    rw [show (" AND ".toList : List Char) = [' ', 'A', 'N', 'D', ' '] from rfl]
    rw [show (") OR ".toList : List Char) = [')', ' ', 'O', 'R', ' '] from rfl]
    simp
  have e3 : (A ++ " AND (".toList ++ B ++ " OR ".toList ++ C ++ ")".toList : List Char) =
      A ++ ' ' :: 'A' :: 'N' :: 'D' :: ' ' :: '(' ::
        (B ++ ' ' :: 'O' :: 'R' :: ' ' :: (C ++ [')'])) := by
    rw [show (" AND (".toList : List Char) = [' ', 'A', 'N', 'D', ' ', '('] from rfl]
    rw [show (" OR ".toList : List Char) = [' ', 'O', 'R', ' '] from rfl]
    rw [show (")".toList : List Char) = [')'] from rfl]
    simp
  refine ⟨?_, ?_, ?_, ?_⟩
  · rw [e1]
    unfold buildSqL
    rw [hm1, hp1]
    show Except.bind (buildLoop f
        [mangleL A, mangleL B, ['A', 'n', 'd'], mangleL C, ['O', 'r']] [])
      (fun nl => buildFinal SQ.or nl) = _
    rw [buildLoop_plain f (mangleL A) _ _ hAOr hAAnd hAhead]
    rw [buildLoop_plain f (mangleL B) _ _ hBOr hBAnd hBhead]
    rw [buildLoop_op_and]
    rw [buildLoop_plain f (mangleL C) _ _ hCOr hCAnd hChead]
    rw [buildLoop_op_or]
    rfl
  · rw [e2]
    unfold buildSqL
    rw [hm2, hp2]
    show Except.bind (buildLoop f
        [mangleL A, mangleL B, ['A', 'n', 'd'], mangleL C, ['O', 'r']] [])
      (fun nl => buildFinal SQ.or nl) = _
    rw [buildLoop_plain f (mangleL A) _ _ hAOr hAAnd hAhead]
    rw [buildLoop_plain f (mangleL B) _ _ hBOr hBAnd hBhead]
    rw [buildLoop_op_and]
    rw [buildLoop_plain f (mangleL C) _ _ hCOr hCAnd hChead]
    rw [buildLoop_op_or]
    rfl
  · rw [e3]
    unfold buildSqL
    rw [hm3, hp3]
    show Except.bind (buildLoop f
        [mangleL A, mangleL B, mangleL C, ['O', 'r'], ['A', 'n', 'd']] [])
      (fun nl => buildFinal SQ.or nl) = _
    rw [buildLoop_plain f (mangleL A) _ _ hAOr hAAnd hAhead]
    rw [buildLoop_plain f (mangleL B) _ _ hBOr hBAnd hBhead]
    rw [buildLoop_plain f (mangleL C) _ _ hCOr hCAnd hChead]
    rw [buildLoop_op_or]
    rw [buildLoop_op_and]
    rfl
  · intro h
    have hv := h (fun _ t => decide (t = mangleL C))
    simp only [evalSQ] at hv
    simp [hAC] at hv

/-- Witness for claim C1 at the literals `Kentucky`, `Virginia`,
`Georgia` on field `state` (none contains an uppercase `OR`/`AND`, so the
lowering leaves them unchanged). -/
theorem claim1_and_binds_tighter_witness :
    buildSqL ("Kentucky".toList ++ " AND ".toList ++ "Virginia".toList ++
        " OR ".toList ++ "Georgia".toList) "state".toList SQ.or =
      Except.ok (SQ.or
        (SQ.and (SQ.leaf "state".toList "Kentucky".toList)
          (SQ.leaf "state".toList "Virginia".toList))
        (SQ.leaf "state".toList "Georgia".toList)) ∧
    ¬ SemEquivSQ
      (SQ.or (SQ.and (SQ.leaf "state".toList "Kentucky".toList)
        (SQ.leaf "state".toList "Virginia".toList))
        (SQ.leaf "state".toList "Georgia".toList))
      (SQ.and (SQ.leaf "state".toList "Kentucky".toList)
        (SQ.or (SQ.leaf "state".toList "Virginia".toList)
          (SQ.leaf "state".toList "Georgia".toList))) := by
  have h := claim1_and_binds_tighter "Kentucky".toList "Virginia".toList
    "Georgia".toList "state".toList (by decide) (by decide) (by decide) (by decide)
  exact ⟨h.1, h.2.2.2⟩
